import Mathlib

/-!
Verification development for the SADL language front end (lexer, section-aware
recursive-descent parser with include resolution) and its layered graph layout.
The definitions below are shallow embeddings of the shipped implementation:
the lexer (`dist/lexer.js`), the parser (`dist/parser.js`) and the layered
layout of the instances view (`src/visualizer.ts`, `layoutInstances`).
Machine strings are Lean `String`/`List Char`, numbers are `Nat`; the
JavaScript `parseInt` on the lexer's digit-only number literals is decimal
accumulation.  Exceptions are modelled as explicit error results.  The
parser's top-level loop is modelled with an explicit step budget (`fuel`)
because the source loop does not always advance; a result of `PRes.div`
for every budget models non-termination of the source loop.
-/

namespace SADL

/-- Token types of the SADL lexer: the section markers of `SECTION_KEYWORDS`,
the `KEYWORDS` map (`include`, `udp`), and the punctuation branches of
`Lexer.tokenize` in `dist/lexer.js`. -/
inductive TokenType where
  | SECTION_NODECLASS
  | SECTION_LINKCLASS
  | SECTION_INSTANCES
  | SECTION_CONNECTIONS
  | SECTION_NATS
  | INCLUDE
  | UDP
  | IDENTIFIER
  | NUMBER
  | STRING
  | LPAREN
  | RPAREN
  | COMMA
  | DOUBLE_COLON
  | DOT
  | ARROW
  | DASH
  | STAR
  | AT
  | EOF
  deriving DecidableEq, Repr

/-- A lexer token: kind, source text, and 1-based line/column provenance. -/
structure Token where
  type : TokenType
  value : String
  line : Nat
  column : Nat
  deriving DecidableEq, Repr

/-- The two lexical error kinds thrown by `Lexer.tokenize`: an unterminated
string literal, and an unrecognized character. -/
inductive LexErrorKind where
  | unterminatedString
  | unexpectedChar (c : Char)
  deriving DecidableEq, Repr

/-- A lexical error carrying the line and column reported in the thrown
`Error` message. -/
structure LexError where
  kind : LexErrorKind
  line : Nat
  column : Nat
  deriving DecidableEq, Repr

/-- Decidable equality for `Except` results (used to evaluate lexer runs
inside decidable statements). -/
instance instDecEqExcept {α β : Type} [DecidableEq α] [DecidableEq β] :
    DecidableEq (Except α β)
  | .ok a, .ok b =>
    if h : a = b then isTrue (by rw [h]) else isFalse (fun hh => h (Except.ok.inj hh))
  | .error a, .error b =>
    if h : a = b then isTrue (by rw [h]) else isFalse (fun hh => h (Except.error.inj hh))
  | .ok _, .error _ => isFalse (fun hh => Except.noConfusion hh)
  | .error _, .ok _ => isFalse (fun hh => Except.noConfusion hh)

/-- Whitespace characters skipped by `Lexer.skipWhitespace`. -/
def isWsChar (c : Char) : Bool :=
  c == ' ' || c == '\t' || c == '\n' || c == '\r'

/-- The identifier-character class `[a-zA-Z0-9_]` of `Lexer.readIdentifier`. -/
def isIdentChar (c : Char) : Bool :=
  ('a' ≤ c && c ≤ 'z') || ('A' ≤ c && c ≤ 'Z') || ('0' ≤ c && c ≤ '9') || c == '_'

/-- The identifier-start class `[a-zA-Z_]` tested in `Lexer.tokenize`. -/
def isIdentStart (c : Char) : Bool :=
  ('a' ≤ c && c ≤ 'z') || ('A' ≤ c && c ≤ 'Z') || c == '_'

/-- The digit class `[0-9]`. -/
def isDigitChar (c : Char) : Bool :=
  '0' ≤ c && c ≤ '9'

/-- `Lexer.advance`'s line/column update for one consumed character:
a newline increments the line and resets the column to 1, any other
character increments the column. -/
def adv (c : Char) (p : Nat × Nat) : Nat × Nat :=
  if c = '\n' then (p.1 + 1, 1) else (p.1, p.2 + 1)

/-- Line/column position after consuming a list of characters. -/
def foldAdv (l : List Char) (p : Nat × Nat) : Nat × Nat :=
  l.foldl (fun q c => adv c q) p

/-- `Lexer.skipWhitespace`: consume a maximal run of space/tab/CR/LF,
returning the remaining input and the updated position. -/
def skipWhitespace : List Char → Nat → Nat → List Char × Nat × Nat
  | [], ln, col => ([], ln, col)
  | c :: rest, ln, col =>
    if isWsChar c then
      skipWhitespace rest (adv c (ln, col)).1 (adv c (ln, col)).2
    else (c :: rest, ln, col)

/-- `Lexer.readIdentifier`: consume a maximal run of identifier characters,
returning the consumed characters, the remaining input and the position. -/
def readIdentChars : List Char → Nat → Nat → List Char × List Char × Nat × Nat
  | [], ln, col => ([], [], ln, col)
  | c :: rest, ln, col =>
    if isIdentChar c then
      match readIdentChars rest (adv c (ln, col)).1 (adv c (ln, col)).2 with
      | (cs, rest1, ln1, col1) => (c :: cs, rest1, ln1, col1)
    else ([], c :: rest, ln, col)

/-- `Lexer.readNumber`: consume a maximal run of digits. -/
def readDigits : List Char → Nat → Nat → List Char × List Char × Nat × Nat
  | [], ln, col => ([], [], ln, col)
  | c :: rest, ln, col =>
    if isDigitChar c then
      match readDigits rest (adv c (ln, col)).1 (adv c (ln, col)).2 with
      | (cs, rest1, ln1, col1) => (c :: cs, rest1, ln1, col1)
    else ([], c :: rest, ln, col)

/-- The string-literal body scan of `Lexer.tokenize` (after the opening
quote): consume characters verbatim up to the next `"`; `none` when the
input ends before a closing quote (an unterminated string). -/
def readStringBody : List Char → Nat → Nat → Option (List Char × List Char × Nat × Nat)
  | [], _, _ => none
  | c :: rest, ln, col =>
    if c = '"' then
      some ([], rest, (adv c (ln, col)).1, (adv c (ln, col)).2)
    else
      match readStringBody rest (adv c (ln, col)).1 (adv c (ln, col)).2 with
      | none => none
      | some (cs, rest1, ln1, col1) => some (c :: cs, rest1, ln1, col1)

/-- `Lexer.skipComment`: consume up to (not including) the next newline. -/
def skipComment : List Char → Nat → Nat → List Char × Nat × Nat
  | [], ln, col => ([], ln, col)
  | c :: rest, ln, col =>
    if c = '\n' then (c :: rest, ln, col)
    else skipComment rest (adv c (ln, col)).1 (adv c (ln, col)).2

/-- JavaScript `toLowerCase` on the ASCII identifier strings the lexer
compares (character-wise ASCII lowercasing). -/
def lowerStr (s : String) : String := String.mk (s.data.map Char.toLower)

/-- The `KEYWORDS` map of `dist/lexer.js`: a lowercased identifier equal to
`include` or `udp` lexes to the keyword token. -/
def keywordLookup (s : String) : Option TokenType :=
  if lowerStr s = "include" then some .INCLUDE
  else if lowerStr s = "udp" then some .UDP
  else none

/-- The `SECTION_KEYWORDS` map: the identifier after `#`, lowercased. -/
def sectionLookup (s : String) : Option TokenType :=
  if lowerStr s = "nodeclass" then some .SECTION_NODECLASS
  else if lowerStr s = "linkclass" then some .SECTION_LINKCLASS
  else if lowerStr s = "instances" then some .SECTION_INSTANCES
  else if lowerStr s = "connections" then some .SECTION_CONNECTIONS
  else if lowerStr s = "nats" then some .SECTION_NATS
  else none

/-- Prepend one emitted token to the result of lexing the rest. -/
def consTok (t : Token) :
    Option (Except LexError (List Token)) → Option (Except LexError (List Token))
  | none => none
  | some (.error e) => some (.error e)
  | some (.ok ts) => some (.ok (t :: ts))

/-- One iteration of the scanning loop of `Lexer.tokenize` after
whitespace skipping: emit the end-of-input token when the input is
exhausted, otherwise dispatch on the current character exactly as the
source's if-chain does, continuing through `recurse`. -/
def lexAfterWs (recurse : List Char → Nat → Nat → Option (Except LexError (List Token))) :
    List Char × Nat × Nat → Option (Except LexError (List Token))
  | ([], ln1, col1) => some (.ok [⟨.EOF, "", ln1, col1⟩])
  | (c :: rest, ln1, col1) =>
    if c = '#' then
      match readIdentChars rest (adv c (ln1, col1)).1 (adv c (ln1, col1)).2 with
      | (cs, rest1, ln2, col2) =>
        match sectionLookup (String.mk cs) with
        | some ty => consTok ⟨ty, String.mk cs, ln1, col1⟩ (recurse rest1 ln2 col2)
        | none =>
          match skipComment rest1 ln2 col2 with
          | (rest2, ln3, col3) => recurse rest2 ln3 col3
    else if isIdentStart c then
      match readIdentChars (c :: rest) ln1 col1 with
      | (cs, rest1, ln2, col2) =>
        consTok ⟨(keywordLookup (String.mk cs)).getD .IDENTIFIER, String.mk cs, ln1, col1⟩
          (recurse rest1 ln2 col2)
    else if isDigitChar c then
      match readDigits (c :: rest) ln1 col1 with
      | (cs, rest1, ln2, col2) =>
        consTok ⟨.NUMBER, String.mk cs, ln1, col1⟩ (recurse rest1 ln2 col2)
    else if c = '"' then
      match readStringBody rest (adv c (ln1, col1)).1 (adv c (ln1, col1)).2 with
      | none => some (.error ⟨.unterminatedString, ln1, col1⟩)
      | some (cs, rest1, ln2, col2) =>
        consTok ⟨.STRING, String.mk cs, ln1, col1⟩ (recurse rest1 ln2 col2)
    else if c = '(' then
      consTok ⟨.LPAREN, "(", ln1, col1⟩ (recurse rest ln1 (col1 + 1))
    else if c = ')' then
      consTok ⟨.RPAREN, ")", ln1, col1⟩ (recurse rest ln1 (col1 + 1))
    else if c = ',' then
      consTok ⟨.COMMA, ",", ln1, col1⟩ (recurse rest ln1 (col1 + 1))
    else if c = ':' && rest.head? == some ':' then
      consTok ⟨.DOUBLE_COLON, "::", ln1, col1⟩ (recurse rest.tail ln1 (col1 + 2))
    else if c = '.' then
      consTok ⟨.DOT, ".", ln1, col1⟩ (recurse rest ln1 (col1 + 1))
    else if c = '-' && rest.head? == some '>' then
      consTok ⟨.ARROW, "->", ln1, col1⟩ (recurse rest.tail ln1 (col1 + 2))
    else if c = '-' then
      consTok ⟨.DASH, "-", ln1, col1⟩ (recurse rest ln1 (col1 + 1))
    else if c = '*' then
      consTok ⟨.STAR, "*", ln1, col1⟩ (recurse rest ln1 (col1 + 1))
    else if c = '@' then
      consTok ⟨.AT, "@", ln1, col1⟩ (recurse rest ln1 (col1 + 1))
    else
      some (.error ⟨.unexpectedChar c, ln1, col1⟩)

/-- The scanning loop of `Lexer.tokenize`, one fuel unit per iteration.
Every iteration of the source loop consumes at least one character, so
`input.length + 1` fuel always suffices (proved below); `none` is the
out-of-fuel sentinel and never occurs for that budget. -/
def lexloopF : Nat → List Char → Nat → Nat → Option (Except LexError (List Token))
  | 0, _, _, _ => none
  | fuel + 1, l, ln, col => lexAfterWs (lexloopF fuel) (skipWhitespace l ln col)

/-- `Lexer.tokenize` on a character list, started at line 1, column 1.
The fuel `l.length + 1` is sufficient (theorem `lexloopF_isSome` below),
so the `getD` default is never taken. -/
def tokenize (l : List Char) : Except LexError (List Token) :=
  (lexloopF (l.length + 1) l 1 1).getD (.ok [])

/-- Source position carried by every AST node. -/
structure Position where
  line : Nat
  column : Nat
  deriving DecidableEq, Repr

/-- Port protocols. TCP is the default; UDP is selected by the `UDP(...)`
wrapper. -/
inductive Protocol where
  | TCP
  | UDP
  deriving DecidableEq, Repr

/-- An inclusive port range `start-end` (no ordering check). -/
structure PortRange where
  start : Nat
  end_ : Nat
  deriving DecidableEq, Repr

/-- A port specification: protocol plus either a single port or a range. -/
structure PortSpec where
  protocol : Protocol
  port : Option Nat
  portRange : Option PortRange
  deriving DecidableEq, Repr

/-- Connector roles: `sercon` (server, the default) or `clicon` (client,
selected by the leading `*`). -/
inductive ConnectorType where
  | sercon
  | clicon
  deriving DecidableEq, Repr

/-- A connector of a node class. -/
structure Connector where
  type : ConnectorType
  name : String
  ports : List PortSpec
  position : Position
  deriving DecidableEq, Repr

/-- A node class: a named template with connectors. -/
structure NodeClass where
  name : String
  connectors : List Connector
  position : Position
  deriving DecidableEq, Repr

/-- One endpoint descriptor of a link class: node class and connector names. -/
structure LinkEnd where
  nodeClass : String
  connector : String
  deriving DecidableEq, Repr

/-- A link class `a.x -> b.y`. -/
structure LinkClass where
  from_ : LinkEnd
  to_ : LinkEnd
  position : Position
  deriving DecidableEq, Repr

/-- One instance entry `name` or `name(ip)`. -/
structure InstanceEntry where
  name : String
  ip : Option String
  deriving DecidableEq, Repr

/-- An instance group: a node-class name with comma-separated entries. -/
structure Instance where
  nodeClass : String
  instances : List InstanceEntry
  position : Position
  deriving DecidableEq, Repr

/-- A NAT record `@name (externalIp, internalIp)`. -/
structure NAT where
  name : String
  externalIp : String
  internalIp : String
  position : Position
  deriving DecidableEq, Repr

/-- A connection `from -> to` between entity names. -/
structure Connection where
  from_ : String
  to_ : String
  position : Position
  deriving DecidableEq, Repr

/-- An `include "path"` directive. -/
structure Include where
  path : String
  position : Position
  deriving DecidableEq, Repr

/-- The aggregate AST with its six ordered collections. -/
structure AST where
  includes : List Include
  nodeClasses : List NodeClass
  linkClasses : List LinkClass
  instances : List Instance
  nats : List NAT
  connections : List Connection
  deriving DecidableEq, Repr

/-- The empty AST created at the start of `Parser.parseContent`. -/
def emptyAST : AST := ⟨[], [], [], [], [], []⟩

/-- The value returned by one successful `Parser.parseTopLevel` call. -/
inductive TopNode where
  | incl (i : Include)
  | ncls (n : NodeClass)
  | lcls (l : LinkClass)
  | inst (i : Instance)
  | natn (n : NAT)
  | conn (c : Connection)
  deriving DecidableEq, Repr

/-- The parser's persistent current-section state. -/
inductive Sect where
  | nodeclass
  | linkclass
  | instances
  | nats
  | connections
  deriving DecidableEq, Repr

/-- Token-stream state: the fields `tokens` and `pos` of the parser. -/
structure TState where
  tokens : List Token
  pos : Nat
  deriving DecidableEq, Repr

/-- Full parser state: token stream plus the include bookkeeping fields
`includedPaths`, `currentSection` and `currentPath`.  `resolveLog` is
instrumentation (not a source field): it records, in order, every path
passed to the file resolver, so that resolve-at-most-once is a statement
about the final state. -/
structure PState where
  ts : TState
  includedPaths : List String
  currentSection : Option Sect
  currentPath : Option String
  resolveLog : List String
  deriving DecidableEq, Repr

/-- Parse errors: a propagated lexical error, or a structural `expect`
failure carrying the message, position and actual token type. -/
inductive PError where
  | lex (e : LexError)
  | exp (message : String) (line : Nat) (column : Nat) (got : TokenType)
  deriving DecidableEq, Repr

/-- Result of a parser computation: success, a thrown error, or `div` —
the out-of-fuel sentinel standing for non-termination of the source's
top-level loop. -/
inductive PRes (α : Type) where
  | ok (a : α)
  | err (e : PError)
  | div
  deriving DecidableEq, Repr

/-- Sequencing for parser results. -/
def pbind {α β : Type} : PRes α → (α → PRes β) → PRes β
  | .ok a, f => f a
  | .err e, _ => .err e
  | .div, _ => .div

/-- The synthetic token returned when indexing past the token array; the
source would fault there, and this position is unreachable from `parse`. -/
def eofTok : Token := ⟨.EOF, "", 0, 0⟩

/-- `Parser.peek`. -/
def peekT (st : TState) : Token := st.tokens.getD st.pos eofTok

/-- `Parser.isAtEnd`. -/
def isAtEndT (st : TState) : Bool := (peekT st).type == .EOF

/-- `Parser.advance`: move past the current token unless at end, returning
the token that was current. -/
def advanceT (st : TState) : Token × TState :=
  if isAtEndT st then (st.tokens.getD (st.pos - 1) eofTok, st)
  else (st.tokens.getD st.pos eofTok, ⟨st.tokens, st.pos + 1⟩)

/-- `Parser.check`. -/
def checkT (ty : TokenType) (st : TState) : Bool := (peekT st).type == ty

/-- `Parser.match` with a single token type (its only use in the source). -/
def matchT (ty : TokenType) (st : TState) : Bool × TState :=
  if checkT ty st then (true, (advanceT st).2) else (false, st)

/-- `Parser.expect`: return the current token and advance, or throw a
structural error with the given message. -/
def expectT (ty : TokenType) (msg : String) (st : TState) : PRes (Token × TState) :=
  if checkT ty st then .ok (advanceT st)
  else .err (.exp msg (peekT st).line (peekT st).column (peekT st).type)

/-- Decimal value of a digit-only number token (JavaScript `parseInt`). -/
def parseIntDec (s : String) : Nat :=
  s.data.foldl (fun a c => a * 10 + (c.toNat - '0'.toNat)) 0

/-- `Parser.parsePortOrRange`: a number, optionally `- number` for a range. -/
def parsePortOrRange (st : TState) : PRes ((Option Nat × Option PortRange) × TState) :=
  pbind (expectT .NUMBER ("Expected port number") st) fun (startTok, st1) =>
  match matchT .DASH st1 with
  | (true, st2) =>
    pbind (expectT .NUMBER ("Expected end port number") st2) fun (endTok, st3) =>
    .ok ((none, some ⟨parseIntDec startTok.value, parseIntDec endTok.value⟩), st3)
  | (false, st2) => .ok ((some (parseIntDec startTok.value), none), st2)

/-- `Parser.parsePortSpec`: optional `UDP( … )` wrapper, default TCP. -/
def parsePortSpec (st : TState) : PRes (PortSpec × TState) :=
  match matchT .UDP st with
  | (true, st1) =>
    pbind (expectT .LPAREN ("Expected opening parenthesis after UDP") st1) fun (_, st2) =>
    pbind (parsePortOrRange st2) fun (pr, st3) =>
    pbind (expectT .RPAREN ("Expected closing parenthesis after UDP port") st3) fun (_, st4) =>
    .ok (⟨.UDP, pr.1, pr.2⟩, st4)
  | (false, st1) =>
    pbind (parsePortOrRange st1) fun (pr, st2) =>
    .ok (⟨.TCP, pr.1, pr.2⟩, st2)

/-- The `do … while (match COMMA)` port-spec list of `Parser.parseConnector`.
Each iteration consumes at least one token, so `tokens.length + 1` fuel
suffices at every call site. -/
def portSpecsLoopF : Nat → TState → PRes (List PortSpec × TState)
  | 0, _ => .div
  | n + 1, st =>
    pbind (parsePortSpec st) fun (ps, st1) =>
    match matchT .COMMA st1 with
    | (true, st2) =>
      pbind (portSpecsLoopF n st2) fun (rest, st3) => .ok (ps :: rest, st3)
    | (false, st2) => .ok ([ps], st2)

/-- `Parser.parseConnector`: optional leading `*` (client role), name, and an
optional parenthesized port-spec list.  The role is `clicon` exactly when
the `*` was present. -/
def parseConnector (st : TState) : PRes (Connector × TState) :=
  let startTok := peekT st
  match matchT .STAR st with
  | (isClient, st1) =>
    pbind (expectT .IDENTIFIER ("Expected connector name") st1) fun (nameTok, st2) =>
    match matchT .LPAREN st2 with
    | (true, st3) =>
      pbind (portSpecsLoopF (st3.tokens.length + 1) st3) fun (ports, st4) =>
      pbind (expectT .RPAREN ("Expected closing parenthesis") st4) fun (_, st5) =>
      .ok (⟨if isClient then .clicon else .sercon, nameTok.value, ports,
            ⟨startTok.line, startTok.column⟩⟩, st5)
    | (false, st3) =>
      .ok (⟨if isClient then .clicon else .sercon, nameTok.value, [],
            ⟨startTok.line, startTok.column⟩⟩, st3)

/-- `Parser.isNodeClassStart`: current token is an identifier and the next
token (when it exists) is `::`. -/
def isNodeClassStart (st : TState) : Bool :=
  checkT .IDENTIFIER st &&
    (decide (st.pos + 1 < st.tokens.length) &&
      ((st.tokens.getD (st.pos + 1) eofTok).type == .DOUBLE_COLON))

/-- The connector loop of `Parser.parseNodeClass`: parse connectors while the
lookahead shows an identifier or `*` that does not start the next node
class. -/
def connectorsLoopF : Nat → TState → PRes (List Connector × TState)
  | 0, _ => .div
  | n + 1, st =>
    if (checkT .IDENTIFIER st || checkT .STAR st) && !isNodeClassStart st then
      pbind (parseConnector st) fun (c, st1) =>
      pbind (connectorsLoopF n st1) fun (cs, st2) => .ok (c :: cs, st2)
    else .ok ([], st)

/-- `Parser.parseNodeClass`: `identifier :: {connector}`. -/
def parseNodeClass (st : TState) : PRes (NodeClass × TState) :=
  pbind (expectT .IDENTIFIER ("Expected node class name") st) fun (nameTok, st1) =>
  pbind (expectT .DOUBLE_COLON ("Expected :: after node class name") st1) fun (_, st2) =>
  pbind (connectorsLoopF (st2.tokens.length + 1) st2) fun (cs, st3) =>
  .ok (⟨nameTok.value, cs, ⟨nameTok.line, nameTok.column⟩⟩, st3)

/-- `Parser.parseLinkClass`: `a.x -> b.y`. -/
def parseLinkClass (st : TState) : PRes (LinkClass × TState) :=
  let startTok := peekT st
  pbind (expectT .IDENTIFIER ("Expected from node class") st) fun (fnc, st1) =>
  pbind (expectT .DOT ("Expected dot") st1) fun (_, st2) =>
  pbind (expectT .IDENTIFIER ("Expected from connector") st2) fun (fcn, st3) =>
  pbind (expectT .ARROW ("Expected -> arrow") st3) fun (_, st4) =>
  pbind (expectT .IDENTIFIER ("Expected to node class") st4) fun (tnc, st5) =>
  pbind (expectT .DOT ("Expected dot") st5) fun (_, st6) =>
  pbind (expectT .IDENTIFIER ("Expected to connector") st6) fun (tcn, st7) =>
  .ok (⟨⟨fnc.value, fcn.value⟩, ⟨tnc.value, tcn.value⟩,
        ⟨startTok.line, startTok.column⟩⟩, st7)

/-- The `while (match DOT)` tail of `Parser.parseIPAddress`. -/
def ipTailF : Nat → TState → PRes (List String × TState)
  | 0, _ => .div
  | n + 1, st =>
    match matchT .DOT st with
    | (true, st1) =>
      pbind (expectT .NUMBER ("Expected IP address octet") st1) fun (t, st2) =>
      pbind (ipTailF n st2) fun (parts, st3) => .ok (t.value :: parts, st3)
    | (false, st1) => .ok ([], st1)

/-- `Parser.parseIPAddress`: one or more numbers joined with `.`. -/
def parseIPAddress (st : TState) : PRes (String × TState) :=
  pbind (expectT .NUMBER ("Expected IP address octet") st) fun (t, st1) =>
  pbind (ipTailF (st1.tokens.length + 1) st1) fun (parts, st2) =>
  .ok (String.intercalate "." (t.value :: parts), st2)

/-- `Parser.parseInstanceEntry`: `name` optionally followed by `(ip)`. -/
def parseInstanceEntry (st : TState) : PRes (InstanceEntry × TState) :=
  pbind (expectT .IDENTIFIER ("Expected instance name") st) fun (nameTok, st1) =>
  match matchT .LPAREN st1 with
  | (true, st2) =>
    pbind (parseIPAddress st2) fun (ip, st3) =>
    pbind (expectT .RPAREN ("Expected closing parenthesis after IP address") st3) fun (_, st4) =>
    .ok (⟨nameTok.value, some ip⟩, st4)
  | (false, st2) => .ok (⟨nameTok.value, none⟩, st2)

/-- The `while (match COMMA)` tail of `Parser.parseInstance`. -/
def entriesTailF : Nat → TState → PRes (List InstanceEntry × TState)
  | 0, _ => .div
  | n + 1, st =>
    match matchT .COMMA st with
    | (true, st1) =>
      pbind (parseInstanceEntry st1) fun (e, st2) =>
      pbind (entriesTailF n st2) fun (es, st3) => .ok (e :: es, st3)
    | (false, st1) => .ok ([], st1)

/-- `Parser.parseInstance`: node-class name then comma-separated entries. -/
def parseInstance (st : TState) : PRes (Instance × TState) :=
  pbind (expectT .IDENTIFIER ("Expected node class name") st) fun (ncTok, st1) =>
  pbind (parseInstanceEntry st1) fun (e, st2) =>
  pbind (entriesTailF (st2.tokens.length + 1) st2) fun (es, st3) =>
  .ok (⟨ncTok.value, e :: es, ⟨ncTok.line, ncTok.column⟩⟩, st3)

/-- `Parser.parseNAT`: `@name (ip, ip)`. -/
def parseNAT (st : TState) : PRes (NAT × TState) :=
  pbind (expectT .AT ("Expected @ for NAT") st) fun (startTok, st1) =>
  pbind (expectT .IDENTIFIER ("Expected NAT name") st1) fun (nameTok, st2) =>
  pbind (expectT .LPAREN ("Expected opening parenthesis") st2) fun (_, st3) =>
  pbind (parseIPAddress st3) fun (ext, st4) =>
  pbind (expectT .COMMA ("Expected comma between IPs") st4) fun (_, st5) =>
  pbind (parseIPAddress st5) fun (int, st6) =>
  pbind (expectT .RPAREN ("Expected closing parenthesis") st6) fun (_, st7) =>
  .ok (⟨nameTok.value, ext, int, ⟨startTok.line, startTok.column⟩⟩, st7)

/-- `Parser.parseConnection`: `from -> to`. -/
def parseConnection (st : TState) : PRes (Connection × TState) :=
  let startTok := peekT st
  pbind (expectT .IDENTIFIER ("Expected from instance") st) fun (f, st1) =>
  pbind (expectT .ARROW ("Expected -> arrow") st1) fun (_, st2) =>
  pbind (expectT .IDENTIFIER ("Expected to instance") st2) fun (t, st3) =>
  .ok (⟨f.value, t.value, ⟨startTok.line, startTok.column⟩⟩, st3)

/-- `Parser.parseInclude`: `include "path"`. -/
def parseInclude (st : TState) : PRes (Include × TState) :=
  pbind (expectT .INCLUDE ("Expected include") st) fun (startTok, st1) =>
  pbind (expectT .STRING ("Expected file path string") st1) fun (pathTok, st2) =>
  .ok (⟨pathTok.value, ⟨startTok.line, startTok.column⟩⟩, st2)

/-- Run a token-level construct parser inside the full parser state. -/
def liftC {α : Type} (f : TState → PRes (α × TState)) (g : α → TopNode)
    (st : PState) : PRes (Option TopNode × PState) :=
  match f st.ts with
  | .ok (a, ts1) => .ok (some (g a), { st with ts := ts1 })
  | .err e => .err e
  | .div => .div

/-- `Parser.parseTopLevel`: section markers set the current section and
yield no node; `include` is accepted anywhere; otherwise dispatch on the
current section and the current token type, and yield no node (without
consuming anything) when nothing matches. -/
def parseTopLevelF (st : PState) : PRes (Option TopNode × PState) :=
  if checkT .SECTION_NODECLASS st.ts then
    .ok (none, { st with ts := (advanceT st.ts).2, currentSection := some .nodeclass })
  else if checkT .SECTION_LINKCLASS st.ts then
    .ok (none, { st with ts := (advanceT st.ts).2, currentSection := some .linkclass })
  else if checkT .SECTION_INSTANCES st.ts then
    .ok (none, { st with ts := (advanceT st.ts).2, currentSection := some .instances })
  else if checkT .SECTION_NATS st.ts then
    .ok (none, { st with ts := (advanceT st.ts).2, currentSection := some .nats })
  else if checkT .SECTION_CONNECTIONS st.ts then
    .ok (none, { st with ts := (advanceT st.ts).2, currentSection := some .connections })
  else if checkT .INCLUDE st.ts then
    liftC parseInclude .incl st
  else if st.currentSection == some .nodeclass && checkT .IDENTIFIER st.ts then
    liftC parseNodeClass .ncls st
  else if st.currentSection == some .linkclass && checkT .IDENTIFIER st.ts then
    liftC parseLinkClass .lcls st
  else if st.currentSection == some .instances && checkT .IDENTIFIER st.ts then
    liftC parseInstance .inst st
  else if st.currentSection == some .nats && checkT .AT st.ts then
    liftC parseNAT .natn st
  else if st.currentSection == some .connections && checkT .IDENTIFIER st.ts then
    liftC parseConnection .conn st
  else
    .ok (none, st)

/-- A file resolver: maps a path and the optional including path to text. -/
def Resolver : Type := String → Option String → String

/-- The `while (!isAtEnd())` loop of `Parser.parseContent`, with
`Parser.processInclude` inlined in the include branch (the standalone
`processIncludeF` below is definitionally that branch).  One fuel unit is
spent per loop iteration and per nested include parse; because the source
loop does not advance past an unrecognized token, no fuel is sufficient
for every input, and `div` for all budgets models that non-termination. -/
def megaLoop : Nat → Option Resolver → AST → PState → PRes (AST × PState)
  | 0, _, _, _ => .div
  | fuel + 1, r, ast, st =>
    if isAtEndT st.ts then .ok (ast, st)
    else
      match parseTopLevelF st with
      | .err e => .err e
      | .div => .div
      | .ok (node, st1) =>
        match node with
        | none => megaLoop fuel r ast st1
        | some (.ncls n) =>
          megaLoop fuel r { ast with nodeClasses := ast.nodeClasses ++ [n] } st1
        | some (.lcls n) =>
          megaLoop fuel r { ast with linkClasses := ast.linkClasses ++ [n] } st1
        | some (.inst n) =>
          megaLoop fuel r { ast with instances := ast.instances ++ [n] } st1
        | some (.natn n) =>
          megaLoop fuel r { ast with nats := ast.nats ++ [n] } st1
        | some (.conn n) =>
          megaLoop fuel r { ast with connections := ast.connections ++ [n] } st1
        | some (.incl i) =>
          let ast1 := { ast with includes := ast.includes ++ [i] }
          match r with
          | none => megaLoop fuel r ast1 st1
          | some f =>
            if i.path ∈ st1.includedPaths then megaLoop fuel r ast1 st1
            else
              let content := f i.path st1.currentPath
              let st2 : PState :=
                { st1 with includedPaths := i.path :: st1.includedPaths,
                           resolveLog := st1.resolveLog ++ [i.path],
                           currentPath := some i.path }
              match (match tokenize content.data with
                     | .error e => (.err (.lex e) : PRes (AST × PState))
                     | .ok toks =>
                       megaLoop fuel r emptyAST
                         { st2 with ts := ⟨toks, 0⟩, currentSection := none }) with
              | .err e => .err e
              | .div => .div
              | .ok (inner, st3) =>
                let ast2 :=
                  { ast1 with nodeClasses := ast1.nodeClasses ++ inner.nodeClasses,
                              linkClasses := ast1.linkClasses ++ inner.linkClasses }
                let st4 : PState :=
                  { st3 with ts := st1.ts, currentPath := st1.currentPath,
                             currentSection := st1.currentSection }
                megaLoop fuel r ast2 st4

/-- `Parser.parseContent`: tokenize the input (propagating lexical errors),
reset the token stream, position and section, and run the top-level loop. -/
def parseContentF (fuel : Nat) (r : Option Resolver) (input : String)
    (st : PState) : PRes (AST × PState) :=
  match tokenize input.data with
  | .error e => .err (.lex e)
  | .ok toks =>
    megaLoop fuel r emptyAST { st with ts := ⟨toks, 0⟩, currentSection := none }

/-- `Parser.processInclude`: with no resolver, or for a path already in
`includedPaths`, do nothing; otherwise mark the path visited, resolve it,
recursively parse the content, splice only its node classes and link
classes into the outer AST, and restore the token stream, position,
current path and current section. -/
def processIncludeF (fuel : Nat) (r : Option Resolver) (i : Include)
    (ast : AST) (st : PState) : PRes (AST × PState) :=
  match r with
  | none => .ok (ast, st)
  | some f =>
    if i.path ∈ st.includedPaths then .ok (ast, st)
    else
      let content := f i.path st.currentPath
      let st2 : PState :=
        { st with includedPaths := i.path :: st.includedPaths,
                  resolveLog := st.resolveLog ++ [i.path],
                  currentPath := some i.path }
      match parseContentF fuel r content st2 with
      | .err e => .err e
      | .div => .div
      | .ok (inner, st3) =>
        .ok ({ ast with nodeClasses := ast.nodeClasses ++ inner.nodeClasses,
                        linkClasses := ast.linkClasses ++ inner.linkClasses },
             { st3 with ts := st.ts, currentPath := st.currentPath,
                        currentSection := st.currentSection })

/-- `Parser.parse`: fresh include bookkeeping (seeding `includedPaths` with
the file's own path when given), then `parseContent`. -/
def parseF (fuel : Nat) (r : Option Resolver) (input : String)
    (filePath : Option String) : PRes (AST × PState) :=
  let st0 : PState :=
    ⟨⟨[], 0⟩, (match filePath with | some p => [p] | none => []), none, filePath, []⟩
  parseContentF fuel r input st0

/-- Layer-assignment state: the `layers` memo map and the `visited`
(in-progress or done) set of `assignLayer` in `Visualizer.layoutInstances`.
Maps and sets are association/membership lists; setting a key prepends,
so `List.lookup` sees the newest binding, like `Map.set`/`Map.get`. -/
structure LState where
  layers : List (String × Nat)
  visited : List String
  deriving DecidableEq, Repr

/-- The incoming-adjacency map: entity name to its list of predecessors. -/
abbrev Incoming : Type := List (String × List String)

/-- `incoming.get(key)?.push(v)`: append `v` to the entry for `key`,
doing nothing when the key is absent. -/
def pushIncoming (m : Incoming) (key v : String) : Incoming :=
  m.map (fun kv => if kv.1 = key then (kv.1, kv.2 ++ [v]) else kv)

/-- Build the incoming map of `Visualizer.layoutInstances`: one empty entry
per entity, then one push per connection edge `(from, to)` onto `to`'s
entry (edges whose target is not an entity are dropped by the `?.`). -/
def buildIncoming (entities : List String) (edges : List (String × String)) : Incoming :=
  edges.foldl (fun m e => pushIncoming m e.2 e.1) (entities.map (fun n => (n, ([] : List String))))

/-- Left-to-right evaluation of `incomingNodes.map(assignLayer)`: thread
the layer state through the recursive calls, collecting the returned
layer values in order. -/
def layerFold (rec : String → LState → Option (Nat × LState)) :
    List String → LState → Option (List Nat × LState)
  | [], st => some ([], st)
  | p :: ps, st =>
    match rec p st with
    | none => none
    | some (v, st1) =>
      match layerFold rec ps st1 with
      | none => none
      | some (vs, st2) => some (v :: vs, st2)

/-- `Math.max` over the collected layer values (all values are naturals,
and the list is non-empty at the use site). -/
def maxList (l : List Nat) : Nat := l.foldl max 0

/-- The memoized recursive `assignLayer` of `Visualizer.layoutInstances`
(and `layoutSchema`): a memoized name returns its layer; a name still in
progress (in `visited` but not memoized — a cycle back-edge) returns 0
without recursing; otherwise the name is marked in progress and gets
layer 0 when it has no incoming edges, else 1 plus the maximum of the
recursive results for its predecessors.  `fuel` bounds the recursion
depth; `none` is the out-of-fuel sentinel, and fuel exceeding the number
of distinct graph names is proved sufficient below. -/
def assignLayerF : Nat → Incoming → String → LState → Option (Nat × LState)
  | 0, _, _, _ => none
  | fuel + 1, inc, name, st =>
    match st.layers.lookup name with
    | some v => some (v, st)
    | none =>
      if name ∈ st.visited then some (0, st)
      else
        match (inc.lookup name).getD [] with
        | [] => some (0, ⟨(name, 0) :: st.layers, name :: st.visited⟩)
        | p :: ps =>
          match layerFold (assignLayerF fuel inc) (p :: ps) ⟨st.layers, name :: st.visited⟩ with
          | none => none
          | some (vs, st2) =>
            some (maxList vs + 1, ⟨(name, maxList vs + 1) :: st2.layers, st2.visited⟩)

/-- The seed loop: call `assignLayer` on every entity in order. -/
def assignSeedsF (fuel : Nat) (inc : Incoming) : List String → LState → Option LState
  | [], st => some st
  | n :: ns, st =>
    match assignLayerF fuel inc n st with
    | none => none
    | some (_, st1) => assignSeedsF fuel inc ns st1

/-- Every name the layer recursion can touch: the entities and the edge
sources (predecessor lists only ever contain edge sources). -/
def layerNames (entities : List String) (edges : List (String × String)) : List String :=
  entities ++ edges.map Prod.fst

/-- A recursion budget provably sufficient for the whole computation:
one more than the number of distinct reachable names. -/
def layerFuel (entities : List String) (edges : List (String × String)) : Nat :=
  (layerNames entities edges).dedup.length + 1

/-- The complete layer assignment over an entity/edge view: build the
incoming map and run the seed loop from the empty state.  `none` (fuel
exhaustion) never happens — theorem `assignLayers_isSome` below. -/
def assignLayers (entities : List String) (edges : List (String × String)) : Option LState :=
  assignSeedsF (layerFuel entities edges) (buildIncoming entities edges) entities ⟨[], []⟩

/-- The subset of the visualizer's `DEFAULT_OPTIONS` that the layout
computation reads. -/
structure VOptions where
  nodeWidth : Nat
  nodeHeight : Nat
  padding : Nat
  deriving DecidableEq, Repr

/-- `DEFAULT_OPTIONS`: nodeWidth 200, nodeHeight 100, padding 40. -/
def defaultOptions : VOptions := ⟨200, 100, 40⟩

/-- One flattened instance entry of the instances view:
`{ name, nodeClass, ip }`. -/
structure FlatInstance where
  name : String
  nodeClass : String
  ip : Option String
  deriving DecidableEq, Repr

/-- Flatten all instance groups into `allInstances`. -/
def allInstancesOf (ast : AST) : List FlatInstance :=
  (ast.instances.map (fun g => g.instances.map (fun e => (⟨e.name, g.nodeClass, e.ip⟩ : FlatInstance)))).flatten

/-- The instances-view edge list: one `(from, to)` pair per connection. -/
def instEdges (ast : AST) : List (String × String) :=
  ast.connections.map (fun c => (c.from_, c.to_))

/-- The instances-view entity seeds: all instance names, then all NAT
names, in source order (matching the two seed loops in the source). -/
def instSeeds (ast : AST) : List String :=
  (allInstancesOf ast).map (fun i => i.name) ++ ast.nats.map (fun n => n.name)

/-- The final layer state of the instances view. -/
def instLayerState (ast : AST) : LState :=
  (assignLayers (instSeeds ast) (instEdges ast)).getD ⟨[], []⟩

/-- `layers.get(name) || 0`. -/
def layerOf (st : LState) (n : String) : Nat := (st.layers.lookup n).getD 0

/-- Insert an element into a sorted list before the first element it is
`le`-below-or-equal (the insertion step of a stable ascending sort). -/
def stableInsert {α : Type} (le : α → α → Bool) (x : α) : List α → List α
  | [] => [x]
  | y :: ys => if le x y then x :: y :: ys else y :: stableInsert le x ys

/-- A stable ascending sort (insertion sort), extensionally the ECMAScript
stable `Array.prototype.sort` under a total comparator: elements that
compare equal keep their original relative order. -/
def stableSort {α : Type} (le : α → α → Bool) (l : List α) : List α :=
  l.foldr (stableInsert le) []

/-- The sorted distinct layer indices present among the instances
(`Array.from(layerGroups.keys()).sort((a, b) => a - b)`). -/
def instLayerKeys (insts : List FlatInstance) (L : LState) : List Nat :=
  stableSort (fun a b => decide (a ≤ b)) ((insts.map (fun i => layerOf L i.name)).dedup)

/-- The instances grouped into one layer, in `allInstances` order. -/
def groupOf (insts : List FlatInstance) (L : LState) (k : Nat) : List FlatInstance :=
  insts.filter (fun i => decide (layerOf L i.name = k))

/-- `rowPositions.get(n) || 0`. -/
def rowOf (rp : List (String × Nat)) (n : String) : Nat := (rp.lookup n).getD 0

/-- The barycenter key of one entity: the mean row position (so far) of its
incoming neighbours, 0 when it has none. -/
def baryAvg (inc : Incoming) (rp : List (String × Nat)) (n : String) : Rat :=
  match (inc.lookup n).getD [] with
  | [] => 0
  | ps => ((((ps.map (fun p => rowOf rp p)).sum : Nat) : Rat)) / ((ps.length : Nat) : Rat)

/-- The per-layer row-assignment loop: layer 0 is sorted by name, higher
layers by the barycenter of their predecessors' rows (stable sorts, like
the ECMAScript `Array.prototype.sort`), and each sorted group records its
0-based row indices. -/
def rowsFold (inc : Incoming) (L : LState) (insts : List FlatInstance) :
    List Nat → List (String × Nat) → List (String × Nat)
  | [], rp => rp
  | k :: ks, rp =>
    let grp := groupOf insts L k
    let sorted :=
      if k = 0 then stableSort (fun a b => decide (a.name ≤ b.name)) grp
      else stableSort (fun a b => decide (baryAvg inc rp a.name ≤ baryAvg inc rp b.name)) grp
    rowsFold inc L insts ks
      (sorted.enum.foldl (fun m p => (p.2.name, p.1) :: m) rp)

/-- The complete `rowPositions` map of the instances view. -/
def instRows (ast : AST) : List (String × Nat) :=
  let insts := allInstancesOf ast
  let L := instLayerState ast
  rowsFold (buildIncoming (instSeeds ast) (instEdges ast)) L insts
    (instLayerKeys insts L) []

/-- A positioned box. -/
structure NodePosition where
  x : Nat
  y : Nat
  width : Nat
  height : Nat
  deriving DecidableEq, Repr

/-- One connector label of a rendered instance. -/
structure RenderedConnector where
  name : String
  type : ConnectorType
  y : Nat
  deriving DecidableEq, Repr

/-- One rendered instance of the instances view. -/
structure RenderedInstance where
  name : String
  ip : Option String
  nodeClass : NodeClass
  position : NodePosition
  connectors : List RenderedConnector
  deriving DecidableEq, Repr

/-- One rendered NAT record. -/
structure RenderedNAT where
  name : String
  externalIp : String
  internalIp : String
  position : NodePosition
  deriving DecidableEq, Repr

/-- The server connectors of a node class, in declaration order. -/
def serconsOf (nc : NodeClass) : List Connector :=
  nc.connectors.filter (fun c => decide (c.type = ConnectorType.sercon))

/-- The client connectors of a node class, in declaration order. -/
def cliconsOf (nc : NodeClass) : List Connector :=
  nc.connectors.filter (fun c => decide (c.type = ConnectorType.clicon))

/-- The instances-view box height: `contentStart` 55 plus 24 per connector
on the fuller side plus 15, bounded below by the minimum `nodeHeight`. -/
def instBoxHeight (opts : VOptions) (nc : NodeClass) : Nat :=
  max opts.nodeHeight (55 + max (serconsOf nc).length (cliconsOf nc).length * 24 + 15)

/-- The node-class lookup map (`Map.set` per class; a later class with the
same name wins, hence the fold that prepends). -/
def nodeClassMapOf (ast : AST) : List (String × NodeClass) :=
  ast.nodeClasses.foldl (fun m nc => (nc.name, nc) :: m) []

/-- Build one rendered instance: skipped (`continue`) when its node class
is unknown; otherwise positioned at
`x = padding + layer * (nodeWidth + padding * 3)`,
`y = padding + row * (nodeHeight + padding * 2)`, with server connector
labels above client connector labels at pitch 24 from `contentStart` 55. -/
def mkRenderedInstance (opts : VOptions) (ncmap : List (String × NodeClass))
    (L : LState) (rp : List (String × Nat)) (i : FlatInstance) : Option RenderedInstance :=
  match ncmap.lookup i.nodeClass with
  | none => none
  | some nc =>
    some ⟨i.name, i.ip, nc,
      ⟨opts.padding + layerOf L i.name * (opts.nodeWidth + opts.padding * 3),
       opts.padding + rowOf rp i.name * (opts.nodeHeight + opts.padding * 2),
       opts.nodeWidth, instBoxHeight opts nc⟩,
      (serconsOf nc).enum.map (fun p => ⟨p.2.name, p.2.type, 55 + p.1 * 24⟩) ++
        (cliconsOf nc).enum.map (fun p => ⟨p.2.name, p.2.type, 55 + p.1 * 24⟩)⟩

/-- `Visualizer.layoutInstances`: layer assignment, row assignment, then
coordinate conversion for the instances and the NAT hexagons (NAT width
120, height 60, centred in the column). -/
def layoutInstances (opts : VOptions) (ast : AST) :
    List RenderedInstance × List RenderedNAT :=
  let insts := allInstancesOf ast
  let L := instLayerState ast
  let rp := instRows ast
  (insts.filterMap (mkRenderedInstance opts (nodeClassMapOf ast) L rp),
   ast.nats.map (fun nat =>
     ⟨nat.name, nat.externalIp, nat.internalIp,
      ⟨opts.padding + layerOf L nat.name * (opts.nodeWidth + opts.padding * 3) +
         (opts.nodeWidth - 120) / 2,
       opts.padding + rowOf rp nat.name * (opts.nodeHeight + opts.padding * 2),
       120, 60⟩⟩))

/-- Whether a parser result is a success. -/
def PRes.isOk {α : Type} : PRes α → Bool
  | .ok _ => true
  | _ => false

/-- The invariant backing resolve-at-most-once: the resolution log is
duplicate-free and every logged path is in the visited set. -/
def ResolveInv (st : PState) : Prop :=
  st.resolveLog.Nodup ∧ ∀ p ∈ st.resolveLog, p ∈ st.includedPaths

/-- All letter-casings of a word (for the case-insensitivity theorems). -/
def casingsOf : List Char → List (List Char)
  | [] => [[]]
  | c :: cs => (casingsOf cs).flatMap (fun r => [c.toLower :: r, c.toUpper :: r])

/-- Number of universe names not yet visited: the termination measure of
the layer recursion. -/
def unseen (univ : List String) (st : LState) : Nat :=
  ((univ.dedup).filter (fun x => !(decide (x ∈ st.visited)))).length

/-- Every predecessor list in the map draws from the given universe. -/
def predsClosed (inc : Incoming) (univ : List String) : Prop :=
  ∀ k l, List.lookup k inc = some l → ∀ x ∈ l, x ∈ univ

/-- The end-to-end scenario source text of the spec (§8): two node
classes, one link class, one instance each, one connection. -/
def inputC8 : String :=
  "#nodeclass\nweb_server:: https_listener(443) *mysql_connector\nmysql_server:: mysql_listener(3306)\n#linkclass\nweb_server.mysql_connector -> mysql_server.mysql_listener\n#instances\nweb_server webserver1\nmysql_server mysql1\n#connections\nwebserver1 -> mysql1\n"

/-- The end-to-end parse result (fuel 200 is ample for this input). -/
def parseResC8 : PRes (AST × PState) := parseF 200 none inputC8 none

/-- The end-to-end AST (the parse succeeds, so the default is not taken). -/
def astC8 : AST :=
  match parseResC8 with
  | .ok (a, _) => a
  | _ => emptyAST

/-- The token stream of the input `42`. -/
def toks42 : List Token := [⟨.NUMBER, "42", 1, 1⟩, ⟨.EOF, "", 1, 3⟩]

/-- The parser state at which the top-level loop gets stuck on input `42`:
a numeric token under no section matches no branch of `parseTopLevel`. -/
def stuck42 : PState := ⟨⟨toks42, 0⟩, [], none, none, []⟩

/-- A resolver mapping every path to empty file content. -/
def rEmpty : Resolver := fun _ _ => ""

/-- A resolver with one library file `lib` containing a node class. -/
def rLib : Resolver := fun p _ =>
  if p = "lib" then ("#nodeclass\nx:: l(1)") else ("")

/-- The include directive node for path `lib`. -/
def incLib : Include := ⟨"lib", ⟨1, 1⟩⟩

/-- An empty full parser state. -/
def stEmptyP : PState := ⟨⟨[], 0⟩, [], none, none, []⟩

/-- A parser state whose visited set already contains `lib`. -/
def stVisitedLib : PState := ⟨⟨[], 0⟩, ["lib"], none, none, []⟩

/-- A token stream holding `* x` (a client-marked connector named x). -/
def stStar : TState :=
  ⟨[⟨.STAR, "*", 1, 1⟩, ⟨.IDENTIFIER, "x", 1, 2⟩, ⟨.EOF, "", 1, 3⟩], 0⟩

/-- The connector parsed from `stStar`. -/
def connStar : Connector := ⟨.clicon, "x", [], ⟨1, 1⟩⟩

/-- The token state after parsing the connector of `stStar`. -/
def stStarOut : TState :=
  ⟨[⟨.STAR, "*", 1, 1⟩, ⟨.IDENTIFIER, "x", 1, 2⟩, ⟨.EOF, "", 1, 3⟩], 2⟩

/-- A source text using the reserved word `include` where a name (the
instance line's node-class name) is required. -/
def inputKwName : String := "#instances\ninclude web"

/-- A hand-written AST for the layout counterexample: the end-to-end
scenario's shape (two classes, one instance each, one connection). -/
def astEx : AST :=
  ⟨[],
   [⟨"web_server", [⟨.sercon, "https_listener", [⟨.TCP, some 443, none⟩], ⟨2, 14⟩⟩,
                    ⟨.clicon, "mysql_connector", [], ⟨2, 34⟩⟩], ⟨2, 1⟩⟩,
    ⟨"mysql_server", [⟨.sercon, "mysql_listener", [⟨.TCP, some 3306, none⟩], ⟨3, 16⟩⟩], ⟨3, 1⟩⟩],
   [⟨⟨"web_server", "mysql_connector"⟩, ⟨"mysql_server", "mysql_listener"⟩, ⟨5, 1⟩⟩],
   [⟨"web_server", [⟨"webserver1", none⟩], ⟨7, 1⟩⟩,
    ⟨"mysql_server", [⟨"mysql1", none⟩], ⟨8, 1⟩⟩],
   [],
   [⟨"webserver1", "mysql1", ⟨10, 1⟩⟩]⟩

/-- The AST obtained by processing `include "lib"` against `rLib` from an
empty outer AST: only the library's node class is spliced in. -/
def astLibInc : AST :=
  ⟨[], [⟨"x", [⟨.sercon, "l", [⟨.TCP, some 1, none⟩], ⟨2, 5⟩⟩], ⟨2, 1⟩⟩], [], [], [], []⟩

/-- The parser state after processing `include "lib"` from `stEmptyP`:
empty token stream restored, `lib` visited and logged once. -/
def stAfterLib : PState := ⟨⟨[], 0⟩, ["lib"], none, none, ["lib"]⟩

/-- The tokens of the source text `include "lib"`. -/
def toksIncOnly : List Token :=
  [⟨.INCLUDE, "include", 1, 1⟩, ⟨.STRING, "lib", 1, 9⟩, ⟨.EOF, "", 1, 14⟩]

/-- The AST of `include "lib"` under the empty-content resolver. -/
def astIncOnly : AST := ⟨[incLib], [], [], [], [], []⟩

/-- The final parser state of `include "lib"` under the empty-content
resolver. -/
def stIncOnly : PState := ⟨⟨toksIncOnly, 2⟩, ["lib"], none, none, ["lib"]⟩

/-- A token stream whose current token is the `udp` keyword. -/
def stUdpTok : TState := ⟨[⟨.UDP, "udp", 1, 1⟩], 0⟩

/-- The rendered instance the layout produces for `webserver1` of `astEx`
(the claim-C7 witness instance). -/
def rWeb : RenderedInstance :=
  ⟨"webserver1", none,
   ⟨"web_server", [⟨.sercon, "https_listener", [⟨.TCP, some 443, none⟩], ⟨2, 14⟩⟩,
                   ⟨.clicon, "mysql_connector", [], ⟨2, 34⟩⟩], ⟨2, 1⟩⟩,
   ⟨40, 40, 200, 100⟩,
   [⟨"https_listener", .sercon, 55⟩, ⟨"mysql_connector", .clicon, 55⟩]⟩

/-- A two-node cyclic graph plus an isolated node, for the layer-assignment
witness. -/
def entsW : List String := ["a", "b", "c"]

/-- The cycle edges of the witness graph. -/
def edgesW : List (String × String) := [("a", "b"), ("b", "a")]

/-- Position tracking composes over concatenation. -/
theorem foldAdv_append (a b : List Char) (p : Nat × Nat) :
    foldAdv (a ++ b) p = foldAdv b (foldAdv a p) := by
  unfold foldAdv
  exact List.foldl_append _ _ _ _

/-- `skipWhitespace` consumes a prefix and advances the position over
exactly that prefix. -/
theorem skipWhitespace_spec : ∀ (l : List Char) ln col l1 ln1 col1,
    skipWhitespace l ln col = (l1, ln1, col1) →
    ∃ pre, l = pre ++ l1 ∧ (ln1, col1) = foldAdv pre (ln, col) := by
  intro l
  induction l with
  | nil =>
    intro ln col l1 ln1 col1 h
    cases h
    exact ⟨[], rfl, rfl⟩
  | cons c rest ih =>
    intro ln col l1 ln1 col1 h
    unfold skipWhitespace at h
    by_cases hc : isWsChar c = true
    · rw [if_pos hc] at h
      obtain ⟨pre, hpre, hpos⟩ := ih _ _ _ _ _ h
      exact ⟨c :: pre, by rw [hpre]; rfl, hpos⟩
    · rw [if_neg hc] at h
      cases h
      exact ⟨[], rfl, rfl⟩

/-- `readIdentifier` returns exactly the consumed prefix and the position
advanced over it. -/
theorem readIdentChars_spec : ∀ (l : List Char) ln col cs rest ln1 col1,
    readIdentChars l ln col = (cs, rest, ln1, col1) →
    l = cs ++ rest ∧ (ln1, col1) = foldAdv cs (ln, col) := by
  intro l
  induction l with
  | nil =>
    intro ln col cs rest ln1 col1 h
    cases h
    exact ⟨rfl, rfl⟩
  | cons c tl ih =>
    intro ln col cs rest ln1 col1 h
    unfold readIdentChars at h
    by_cases hc : isIdentChar c = true
    · rw [if_pos hc] at h
      rcases hr : readIdentChars tl (adv c (ln, col)).1 (adv c (ln, col)).2
        with ⟨cs', rest', ln', col'⟩
      rw [hr] at h
      cases h
      obtain ⟨h1, h2⟩ := ih _ _ _ _ _ _ hr
      exact ⟨by rw [h1]; rfl, h2⟩
    · rw [if_neg hc] at h
      cases h
      exact ⟨rfl, rfl⟩

/-- `readNumber` returns exactly the consumed prefix and the position
advanced over it. -/
theorem readDigits_spec : ∀ (l : List Char) ln col cs rest ln1 col1,
    readDigits l ln col = (cs, rest, ln1, col1) →
    l = cs ++ rest ∧ (ln1, col1) = foldAdv cs (ln, col) := by
  intro l
  induction l with
  | nil =>
    intro ln col cs rest ln1 col1 h
    cases h
    exact ⟨rfl, rfl⟩
  | cons c tl ih =>
    intro ln col cs rest ln1 col1 h
    unfold readDigits at h
    by_cases hc : isDigitChar c = true
    · rw [if_pos hc] at h
      rcases hr : readDigits tl (adv c (ln, col)).1 (adv c (ln, col)).2
        with ⟨cs', rest', ln', col'⟩
      rw [hr] at h
      cases h
      obtain ⟨h1, h2⟩ := ih _ _ _ _ _ _ hr
      exact ⟨by rw [h1]; rfl, h2⟩
    · rw [if_neg hc] at h
      cases h
      exact ⟨rfl, rfl⟩

/-- `skipComment` consumes a prefix and advances the position over it. -/
theorem skipComment_spec : ∀ (l : List Char) ln col l1 ln1 col1,
    skipComment l ln col = (l1, ln1, col1) →
    ∃ pre, l = pre ++ l1 ∧ (ln1, col1) = foldAdv pre (ln, col) := by
  intro l
  induction l with
  | nil =>
    intro ln col l1 ln1 col1 h
    cases h
    exact ⟨[], rfl, rfl⟩
  | cons c rest ih =>
    intro ln col l1 ln1 col1 h
    unfold skipComment at h
    by_cases hc : c = '\n'
    · rw [if_pos hc] at h
      cases h
      exact ⟨[], rfl, rfl⟩
    · rw [if_neg hc] at h
      obtain ⟨pre, hpre, hpos⟩ := ih _ _ _ _ _ h
      exact ⟨c :: pre, by rw [hpre]; rfl, hpos⟩

/-- A successful string-body scan consumed the body plus the closing quote
and advanced the position over both. -/
theorem readStringBody_spec : ∀ (l : List Char) ln col cs rest ln1 col1,
    readStringBody l ln col = some (cs, rest, ln1, col1) →
    l = cs ++ '"' :: rest ∧ (ln1, col1) = foldAdv (cs ++ ['"']) (ln, col) := by
  intro l
  induction l with
  | nil =>
    intro ln col cs rest ln1 col1 h
    cases h
  | cons c tl ih =>
    intro ln col cs rest ln1 col1 h
    unfold readStringBody at h
    by_cases hc : c = '"'
    · rw [if_pos hc] at h
      simp only [Option.some.injEq, Prod.mk.injEq] at h
      obtain ⟨h1, h2, h3, h4⟩ := h
      subst h1; subst h2; subst hc
      constructor
      · rfl
      · rw [← h3, ← h4]
        rfl
    · rw [if_neg hc] at h
      rcases hr : readStringBody tl (adv c (ln, col)).1 (adv c (ln, col)).2
        with _ | ⟨cs', rest', ln', col'⟩ <;> rw [hr] at h
      · cases h
      · simp only [Option.some.injEq, Prod.mk.injEq] at h
        obtain ⟨h1, h2, h3, h4⟩ := h
        subst h1; subst h2
        obtain ⟨g1, g2⟩ := ih _ _ _ _ _ _ hr
        constructor
        · rw [g1]; rfl
        · rw [← h3, ← h4]
          rw [g2]
          rfl

/-- A successful lex with a prepended token came from a successful lex of
the rest. -/
theorem consTok_ok (t : Token) (r : Option (Except LexError (List Token))) (ts : List Token)
    (h : consTok t r = some (.ok ts)) : ∃ ts', r = some (.ok ts') ∧ ts = t :: ts' := by
  cases r with
  | none => cases h
  | some v =>
    cases v with
    | error e => cases h
    | ok l =>
      simp only [consTok, Option.some.injEq, Except.ok.injEq] at h
      exact ⟨l, rfl, h.symm⟩

/-- Section markers are never the end-of-input token. -/
theorem sectionLookup_ne_eof (s : String) (ty : TokenType)
    (h : sectionLookup s = some ty) : ty ≠ .EOF := by
  unfold sectionLookup at h
  split_ifs at h <;> (try cases h) <;> decide

/-- Keyword-or-identifier tokens are never the end-of-input token. -/
theorem keywordGetD_ne_eof (s : String) : (keywordLookup s).getD .IDENTIFIER ≠ .EOF := by
  unfold keywordLookup
  split_ifs <;> decide

set_option maxHeartbeats 4000000 in
/-- Every successful run of the scanning loop ends in exactly one
end-of-input token, positioned where consuming the whole remaining input
from the current position lands. -/
theorem lexloopF_ok_spec : ∀ fuel (l : List Char) ln col ts,
    lexloopF fuel l ln col = some (.ok ts) →
    ∃ body, ts = body ++ [⟨.EOF, "", (foldAdv l (ln, col)).1, (foldAdv l (ln, col)).2⟩] ∧
      ∀ t ∈ body, t.type ≠ .EOF := by
  intro fuel
  induction fuel with
  | zero => intro l ln col ts h; cases h
  | succ n ih =>
    intro l ln col ts h
    rw [lexloopF] at h
    rcases hw : skipWhitespace l ln col with ⟨l1, ln1, col1⟩
    rw [hw] at h
    obtain ⟨pre, hws, hp⟩ := skipWhitespace_spec _ _ _ _ _ _ hw
    have hfold0 : foldAdv l (ln, col) = foldAdv l1 (ln1, col1) := by
      rw [hws, foldAdv_append, ← hp]
    cases l1 with
    | nil =>
      simp only [lexAfterWs, Option.some.injEq, Except.ok.injEq] at h
      subst h
      refine ⟨[], ?_, by intro t ht; cases ht⟩
      rw [hfold0]
      rfl
    | cons c rest =>
      have hcomp : ∀ (consumed rest' : List Char) (q : Nat × Nat),
          c :: rest = consumed ++ rest' → q = foldAdv consumed (ln1, col1) →
          foldAdv rest' q = foldAdv l (ln, col) := by
        intro consumed rest' q hsplit hq
        rw [hfold0, hsplit, foldAdv_append, ← hq]
      simp only [lexAfterWs] at h
      by_cases hA : c = '#'
      · rw [if_pos hA] at h
        subst hA
        rcases hri : readIdentChars rest (adv '#' (ln1, col1)).1 (adv '#' (ln1, col1)).2
          with ⟨cs, rest1, ln2, col2⟩
        rw [hri] at h
        obtain ⟨hs1, hs2⟩ := readIdentChars_spec _ _ _ _ _ _ _ hri
        rcases hsl : sectionLookup (String.mk cs) with _ | ty <;> rw [hsl] at h
        · rcases hsc : skipComment rest1 ln2 col2 with ⟨rest2, ln3, col3⟩
          rw [hsc] at h
          obtain ⟨pre2, hc1, hc2⟩ := skipComment_spec _ _ _ _ _ _ hsc
          obtain ⟨body, hb, hne⟩ := ih _ _ _ _ h
          refine ⟨body, ?_, hne⟩
          rw [hb]
          have hpos2 : foldAdv rest2 (ln3, col3) = foldAdv l (ln, col) := by
            refine hcomp (('#' :: cs) ++ pre2) rest2 (ln3, col3) ?_ ?_
            · rw [hs1, hc1]
              all_goals simp
            · rw [foldAdv_append, hc2]
              congr 1
          rw [hpos2]
        · obtain ⟨ts', hr, hts⟩ := consTok_ok _ _ _ h
          subst hts
          obtain ⟨body, hb, hne⟩ := ih _ _ _ _ hr
          refine ⟨(⟨ty, String.mk cs, ln1, col1⟩ : Token) :: body, ?_, ?_⟩
          · rw [hb]
            have hpos2 : foldAdv rest1 (ln2, col2) = foldAdv l (ln, col) := by
              refine hcomp ('#' :: cs) rest1 (ln2, col2) ?_ hs2
              rw [hs1]
              all_goals rfl
            rw [hpos2]
            rfl
          · intro t ht
            rcases List.mem_cons.1 ht with rfl | ht
            · exact sectionLookup_ne_eof _ _ hsl
            · exact hne t ht
      · rw [if_neg hA] at h
        by_cases hB : isIdentStart c = true
        · rw [if_pos hB] at h
          rcases hri : readIdentChars (c :: rest) ln1 col1 with ⟨cs, rest1, ln2, col2⟩
          rw [hri] at h
          obtain ⟨hs1, hs2⟩ := readIdentChars_spec _ _ _ _ _ _ _ hri
          obtain ⟨ts', hr, hts⟩ := consTok_ok _ _ _ h
          subst hts
          obtain ⟨body, hb, hne⟩ := ih _ _ _ _ hr
          refine ⟨(⟨(keywordLookup (String.mk cs)).getD .IDENTIFIER, String.mk cs, ln1, col1⟩ : Token) :: body, ?_, ?_⟩
          · rw [hb]
            have hpos2 : foldAdv rest1 (ln2, col2) = foldAdv l (ln, col) :=
              hcomp cs rest1 (ln2, col2) hs1 hs2
            rw [hpos2]
            rfl
          · intro t ht
            rcases List.mem_cons.1 ht with rfl | ht
            · exact keywordGetD_ne_eof _
            · exact hne t ht
        · rw [if_neg hB] at h
          by_cases hC : isDigitChar c = true
          · rw [if_pos hC] at h
            rcases hri : readDigits (c :: rest) ln1 col1 with ⟨cs, rest1, ln2, col2⟩
            rw [hri] at h
            obtain ⟨hs1, hs2⟩ := readDigits_spec _ _ _ _ _ _ _ hri
            obtain ⟨ts', hr, hts⟩ := consTok_ok _ _ _ h
            subst hts
            obtain ⟨body, hb, hne⟩ := ih _ _ _ _ hr
            refine ⟨(⟨.NUMBER, String.mk cs, ln1, col1⟩ : Token) :: body, ?_, ?_⟩
            · rw [hb]
              have hpos2 : foldAdv rest1 (ln2, col2) = foldAdv l (ln, col) :=
                hcomp cs rest1 (ln2, col2) hs1 hs2
              rw [hpos2]
              rfl
            · intro t ht
              rcases List.mem_cons.1 ht with rfl | ht
              · intro hh; cases hh
              · exact hne t ht
          · rw [if_neg hC] at h
            by_cases hD : c = '"'
            · rw [if_pos hD] at h
              subst hD
              rcases hrs : readStringBody rest (adv '"' (ln1, col1)).1 (adv '"' (ln1, col1)).2
                with _ | ⟨cs, rest1, ln2, col2⟩ <;> rw [hrs] at h
              · cases h
              · obtain ⟨hs1, hs2⟩ := readStringBody_spec _ _ _ _ _ _ _ hrs
                obtain ⟨ts', hr, hts⟩ := consTok_ok _ _ _ h
                subst hts
                obtain ⟨body, hb, hne⟩ := ih _ _ _ _ hr
                refine ⟨(⟨.STRING, String.mk cs, ln1, col1⟩ : Token) :: body, ?_, ?_⟩
                · rw [hb]
                  have hpos2 : foldAdv rest1 (ln2, col2) = foldAdv l (ln, col) := by
                    refine hcomp ('"' :: (cs ++ ['"'])) rest1 (ln2, col2) ?_ hs2
                    rw [hs1]
                    simp
                  rw [hpos2]
                  rfl
                · intro t ht
                  rcases List.mem_cons.1 ht with rfl | ht
                  · intro hh; cases hh
                  · exact hne t ht
            · rw [if_neg hD] at h
              by_cases hE : c = '('
              · rw [if_pos hE] at h
                obtain ⟨ts', hr, hts⟩ := consTok_ok _ _ _ h
                subst hts
                obtain ⟨body, hb, hne⟩ := ih _ _ _ _ hr
                subst hE
                refine ⟨(⟨.LPAREN, "(", ln1, col1⟩ : Token) :: body, ?_, ?_⟩
                · rw [hb]
                  have hpos2 : foldAdv rest (ln1, col1 + 1) = foldAdv l (ln, col) :=
                    hcomp ['('] rest (ln1, col1 + 1) rfl rfl
                  rw [hpos2]
                  rfl
                · intro t ht
                  rcases List.mem_cons.1 ht with rfl | ht
                  · intro hh; cases hh
                  · exact hne t ht
              · rw [if_neg hE] at h
                by_cases hF : c = ')'
                · rw [if_pos hF] at h
                  obtain ⟨ts', hr, hts⟩ := consTok_ok _ _ _ h
                  subst hts
                  obtain ⟨body, hb, hne⟩ := ih _ _ _ _ hr
                  subst hF
                  refine ⟨(⟨.RPAREN, ")", ln1, col1⟩ : Token) :: body, ?_, ?_⟩
                  · rw [hb]
                    have hpos2 : foldAdv rest (ln1, col1 + 1) = foldAdv l (ln, col) :=
                      hcomp [')'] rest (ln1, col1 + 1) rfl rfl
                    rw [hpos2]
                    rfl
                  · intro t ht
                    rcases List.mem_cons.1 ht with rfl | ht
                    · intro hh; cases hh
                    · exact hne t ht
                · rw [if_neg hF] at h
                  by_cases hG : c = ','
                  · rw [if_pos hG] at h
                    obtain ⟨ts', hr, hts⟩ := consTok_ok _ _ _ h
                    subst hts
                    obtain ⟨body, hb, hne⟩ := ih _ _ _ _ hr
                    subst hG
                    refine ⟨(⟨.COMMA, ",", ln1, col1⟩ : Token) :: body, ?_, ?_⟩
                    · rw [hb]
                      have hpos2 : foldAdv rest (ln1, col1 + 1) = foldAdv l (ln, col) :=
                        hcomp [','] rest (ln1, col1 + 1) rfl rfl
                      rw [hpos2]
                      rfl
                    · intro t ht
                      rcases List.mem_cons.1 ht with rfl | ht
                      · intro hh; cases hh
                      · exact hne t ht
                  · rw [if_neg hG] at h
                    by_cases hH : (decide (c = ':') && (rest.head? == some ':')) = true
                    · rw [if_pos hH] at h
                      simp only [Bool.and_eq_true, decide_eq_true_eq, beq_iff_eq] at hH
                      obtain ⟨hP1, hP2⟩ := hH
                      have hrest : rest = ':' :: rest.tail := by
                        cases rest with
                        | nil => cases hP2
                        | cons a tl =>
                          simp only [List.head?, Option.some.injEq] at hP2
                          subst hP2
                          rfl
                      obtain ⟨ts', hr, hts⟩ := consTok_ok _ _ _ h
                      subst hts
                      obtain ⟨body, hb, hne⟩ := ih _ _ _ _ hr
                      subst hP1
                      refine ⟨(⟨.DOUBLE_COLON, "::", ln1, col1⟩ : Token) :: body, ?_, ?_⟩
                      · rw [hb]
                        have hpos2 : foldAdv rest.tail (ln1, col1 + 2) = foldAdv l (ln, col) := by
                          refine hcomp [':', ':'] rest.tail (ln1, col1 + 2) ?_ rfl
                          rw [hrest]
                          simp
                        rw [hpos2]
                        rfl
                      · intro t ht
                        rcases List.mem_cons.1 ht with rfl | ht
                        · intro hh; cases hh
                        · exact hne t ht
                    · rw [if_neg hH] at h
                      by_cases hI : c = '.'
                      · rw [if_pos hI] at h
                        obtain ⟨ts', hr, hts⟩ := consTok_ok _ _ _ h
                        subst hts
                        obtain ⟨body, hb, hne⟩ := ih _ _ _ _ hr
                        subst hI
                        refine ⟨(⟨.DOT, ".", ln1, col1⟩ : Token) :: body, ?_, ?_⟩
                        · rw [hb]
                          have hpos2 : foldAdv rest (ln1, col1 + 1) = foldAdv l (ln, col) :=
                            hcomp ['.'] rest (ln1, col1 + 1) rfl rfl
                          rw [hpos2]
                          rfl
                        · intro t ht
                          rcases List.mem_cons.1 ht with rfl | ht
                          · intro hh; cases hh
                          · exact hne t ht
                      · rw [if_neg hI] at h
                        by_cases hJ : (decide (c = '-') && (rest.head? == some '>')) = true
                        · rw [if_pos hJ] at h
                          simp only [Bool.and_eq_true, decide_eq_true_eq, beq_iff_eq] at hJ
                          obtain ⟨hP1, hP2⟩ := hJ
                          have hrest : rest = '>' :: rest.tail := by
                            cases rest with
                            | nil => cases hP2
                            | cons a tl =>
                              simp only [List.head?, Option.some.injEq] at hP2
                              subst hP2
                              rfl
                          obtain ⟨ts', hr, hts⟩ := consTok_ok _ _ _ h
                          subst hts
                          obtain ⟨body, hb, hne⟩ := ih _ _ _ _ hr
                          subst hP1
                          refine ⟨(⟨.ARROW, "->", ln1, col1⟩ : Token) :: body, ?_, ?_⟩
                          · rw [hb]
                            have hpos2 : foldAdv rest.tail (ln1, col1 + 2) = foldAdv l (ln, col) := by
                              refine hcomp ['-', '>'] rest.tail (ln1, col1 + 2) ?_ rfl
                              rw [hrest]
                              simp
                            rw [hpos2]
                            rfl
                          · intro t ht
                            rcases List.mem_cons.1 ht with rfl | ht
                            · intro hh; cases hh
                            · exact hne t ht
                        · rw [if_neg hJ] at h
                          by_cases hK : c = '-'
                          · rw [if_pos hK] at h
                            obtain ⟨ts', hr, hts⟩ := consTok_ok _ _ _ h
                            subst hts
                            obtain ⟨body, hb, hne⟩ := ih _ _ _ _ hr
                            subst hK
                            refine ⟨(⟨.DASH, "-", ln1, col1⟩ : Token) :: body, ?_, ?_⟩
                            · rw [hb]
                              have hpos2 : foldAdv rest (ln1, col1 + 1) = foldAdv l (ln, col) :=
                                hcomp ['-'] rest (ln1, col1 + 1) rfl rfl
                              rw [hpos2]
                              rfl
                            · intro t ht
                              rcases List.mem_cons.1 ht with rfl | ht
                              · intro hh; cases hh
                              · exact hne t ht
                          · rw [if_neg hK] at h
                            by_cases hL : c = '*'
                            · rw [if_pos hL] at h
                              obtain ⟨ts', hr, hts⟩ := consTok_ok _ _ _ h
                              subst hts
                              obtain ⟨body, hb, hne⟩ := ih _ _ _ _ hr
                              subst hL
                              refine ⟨(⟨.STAR, "*", ln1, col1⟩ : Token) :: body, ?_, ?_⟩
                              · rw [hb]
                                have hpos2 : foldAdv rest (ln1, col1 + 1) = foldAdv l (ln, col) :=
                                  hcomp ['*'] rest (ln1, col1 + 1) rfl rfl
                                rw [hpos2]
                                rfl
                              · intro t ht
                                rcases List.mem_cons.1 ht with rfl | ht
                                · intro hh; cases hh
                                · exact hne t ht
                            · rw [if_neg hL] at h
                              by_cases hM : c = '@'
                              · rw [if_pos hM] at h
                                obtain ⟨ts', hr, hts⟩ := consTok_ok _ _ _ h
                                subst hts
                                obtain ⟨body, hb, hne⟩ := ih _ _ _ _ hr
                                subst hM
                                refine ⟨(⟨.AT, "@", ln1, col1⟩ : Token) :: body, ?_, ?_⟩
                                · rw [hb]
                                  have hpos2 : foldAdv rest (ln1, col1 + 1) = foldAdv l (ln, col) :=
                                    hcomp ['@'] rest (ln1, col1 + 1) rfl rfl
                                  rw [hpos2]
                                  rfl
                                · intro t ht
                                  rcases List.mem_cons.1 ht with rfl | ht
                                  · intro hh; cases hh
                                  · exact hne t ht
                              · rw [if_neg hM] at h
                                cases h

/-- Prepending a token preserves definedness of the lex result. -/
theorem consTok_isSome (t : Token) (r : Option (Except LexError (List Token))) :
    (consTok t r).isSome = r.isSome := by
  rcases r with _ | v
  · rfl
  · cases v with
    | error e => rfl
    | ok ts => rfl

/-- Identifier-start characters are identifier characters. -/
theorem identStart_identChar (c : Char) (h : isIdentStart c = true) :
    isIdentChar c = true := by
  unfold isIdentStart at h
  unfold isIdentChar
  simp only [Bool.or_eq_true] at h ⊢
  tauto

/-- One consuming step of `readIdentifier`. -/
theorem readIdentChars_cons_pos (c : Char) (rest : List Char) (ln col : Nat)
    (hc : isIdentChar c = true) :
    (readIdentChars (c :: rest) ln col).2.1 =
      (readIdentChars rest (adv c (ln, col)).1 (adv c (ln, col)).2).2.1 := by
  rw [readIdentChars, if_pos hc]

/-- One consuming step of `readNumber`. -/
theorem readDigits_cons_pos (c : Char) (rest : List Char) (ln col : Nat)
    (hc : isDigitChar c = true) :
    (readDigits (c :: rest) ln col).2.1 =
      (readDigits rest (adv c (ln, col)).1 (adv c (ln, col)).2).2.1 := by
  rw [readDigits, if_pos hc]

set_option maxHeartbeats 2000000 in
/-- Fuel one more than the remaining input length never runs out: every
loop iteration consumes at least one character. -/
theorem lexloopF_isSome : ∀ fuel (l : List Char) ln col, l.length < fuel →
    (lexloopF fuel l ln col).isSome = true := by
  intro fuel
  induction fuel with
  | zero => intro l ln col h; exact absurd h (Nat.not_lt_zero _)
  | succ n ih =>
    intro l ln col hlen
    rw [lexloopF]
    rcases hw : skipWhitespace l ln col with ⟨l1, ln1, col1⟩
    obtain ⟨pre, hws, -⟩ := skipWhitespace_spec _ _ _ _ _ _ hw
    cases l1 with
    | nil => rfl
    | cons c rest =>
      have hrest : rest.length < n := by
        have hl : l.length = pre.length + (rest.length + 1) := by rw [hws]; simp
        omega
      simp only [lexAfterWs]
      by_cases hA : c = '#'
      · rw [if_pos hA]
        rcases hri : readIdentChars rest (adv c (ln1, col1)).1 (adv c (ln1, col1)).2
          with ⟨cs, rest1, ln2, col2⟩
        simp only []
        obtain ⟨hs1, -⟩ := readIdentChars_spec _ _ _ _ _ _ _ hri
        have hr1 : rest1.length ≤ rest.length := by rw [hs1]; simp
        rcases hsl : sectionLookup (String.mk cs) with _ | ty
        · simp only []
          rcases hsc : skipComment rest1 ln2 col2 with ⟨rest2, ln3, col3⟩
          obtain ⟨pre2, hc1, -⟩ := skipComment_spec _ _ _ _ _ _ hsc
          have hr2 : rest2.length ≤ rest1.length := by rw [hc1]; simp
          exact ih rest2 ln3 col3 (by omega)
        · simp only []
          rw [consTok_isSome]
          exact ih rest1 ln2 col2 (by omega)
      · rw [if_neg hA]
        by_cases hB : isIdentStart c = true
        · rw [if_pos hB]
          have hid : isIdentChar c = true := identStart_identChar c hB
          rcases hri : readIdentChars (c :: rest) ln1 col1 with ⟨cs, rest1, ln2, col2⟩
          simp only []
          have hr1 : rest1.length ≤ rest.length := by
            have h2 := readIdentChars_cons_pos c rest ln1 col1 hid
            rw [hri] at h2
            rcases hri2 : readIdentChars rest (adv c (ln1, col1)).1 (adv c (ln1, col1)).2
              with ⟨cs2, r2, a2, b2⟩
            rw [hri2] at h2
            obtain ⟨g1, -⟩ := readIdentChars_spec _ _ _ _ _ _ _ hri2
            simp only [] at h2
            rw [h2, g1]
            simp
          rw [consTok_isSome]
          exact ih rest1 ln2 col2 (by omega)
        · rw [if_neg hB]
          by_cases hC : isDigitChar c = true
          · rw [if_pos hC]
            rcases hri : readDigits (c :: rest) ln1 col1 with ⟨cs, rest1, ln2, col2⟩
            simp only []
            have hr1 : rest1.length ≤ rest.length := by
              have h2 := readDigits_cons_pos c rest ln1 col1 hC
              rw [hri] at h2
              rcases hri2 : readDigits rest (adv c (ln1, col1)).1 (adv c (ln1, col1)).2
                with ⟨cs2, r2, a2, b2⟩
              rw [hri2] at h2
              obtain ⟨g1, -⟩ := readDigits_spec _ _ _ _ _ _ _ hri2
              simp only [] at h2
              rw [h2, g1]
              simp
            rw [consTok_isSome]
            exact ih rest1 ln2 col2 (by omega)
          · rw [if_neg hC]
            by_cases hD : c = '"'
            · rw [if_pos hD]
              rcases hrs : readStringBody rest (adv c (ln1, col1)).1 (adv c (ln1, col1)).2
                with _ | ⟨cs, rest1, ln2, col2⟩
              · rfl
              · simp only []
                obtain ⟨hs1, -⟩ := readStringBody_spec _ _ _ _ _ _ _ hrs
                have hr1 : rest1.length ≤ rest.length := by rw [hs1]; simp; omega
                rw [consTok_isSome]
                exact ih rest1 ln2 col2 (by omega)
            · rw [if_neg hD]
              by_cases hE : c = '('
              · rw [if_pos hE, consTok_isSome]
                exact ih rest ln1 (col1 + 1) (by omega)
              · rw [if_neg hE]
                by_cases hF : c = ')'
                · rw [if_pos hF, consTok_isSome]
                  exact ih rest ln1 (col1 + 1) (by omega)
                · rw [if_neg hF]
                  by_cases hG : c = ','
                  · rw [if_pos hG, consTok_isSome]
                    exact ih rest ln1 (col1 + 1) (by omega)
                  · rw [if_neg hG]
                    by_cases hH : (decide (c = ':') && (rest.head? == some ':')) = true
                    · rw [if_pos hH, consTok_isSome]
                      refine ih rest.tail ln1 (col1 + 2) ?_
                      have h1 : rest.tail.length = rest.length - 1 := List.length_tail _
                      omega
                    · rw [if_neg hH]
                      by_cases hI : c = '.'
                      · rw [if_pos hI, consTok_isSome]
                        exact ih rest ln1 (col1 + 1) (by omega)
                      · rw [if_neg hI]
                        by_cases hJ : (decide (c = '-') && (rest.head? == some '>')) = true
                        · rw [if_pos hJ, consTok_isSome]
                          refine ih rest.tail ln1 (col1 + 2) ?_
                          have h1 : rest.tail.length = rest.length - 1 := List.length_tail _
                          omega
                        · rw [if_neg hJ]
                          by_cases hK : c = '-'
                          · rw [if_pos hK, consTok_isSome]
                            exact ih rest ln1 (col1 + 1) (by omega)
                          · rw [if_neg hK]
                            by_cases hL : c = '*'
                            · rw [if_pos hL, consTok_isSome]
                              exact ih rest ln1 (col1 + 1) (by omega)
                            · rw [if_neg hL]
                              by_cases hM : c = '@'
                              · rw [if_pos hM, consTok_isSome]
                                exact ih rest ln1 (col1 + 1) (by omega)
                              · rw [if_neg hM]
                                rfl

/-- Claim C5: `tokenize` is a total function, and on every input it either
returns a token array ending in the single end-of-input token positioned
at the final line and column (the position reached by consuming the whole
input from line 1, column 1), or it returns a lexical error, which by
construction is an unterminated-string or unrecognized-character error
carrying a line and column — it throws in no other case. -/
theorem tokenize_total_spec (l : List Char) :
    (∃ body, tokenize l = .ok (body ++
        [⟨.EOF, "", (foldAdv l (1, 1)).1, (foldAdv l (1, 1)).2⟩]) ∧
      ∀ t ∈ body, t.type ≠ .EOF) ∨
    (∃ e, tokenize l = .error e ∧
      (e.kind = .unterminatedString ∨ ∃ ch, e.kind = .unexpectedChar ch)) := by
  unfold tokenize
  rcases hr : lexloopF (l.length + 1) l 1 1 with _ | r
  · have hs := lexloopF_isSome (l.length + 1) l 1 1 (by omega)
    rw [hr] at hs
    cases hs
  · cases r with
    | error e =>
      refine Or.inr ⟨e, rfl, ?_⟩
      cases hk : e.kind with
      | unterminatedString => exact Or.inl rfl
      | unexpectedChar ch => exact Or.inr ⟨ch, rfl⟩
    | ok ts =>
      obtain ⟨body, hb, hne⟩ := lexloopF_ok_spec _ _ _ _ _ hr
      refine Or.inl ⟨body, ?_, hne⟩
      simp only [Option.getD_some]
      rw [hb]

/-- Association-list lookup after a cons. -/
lemma lookup_cons {β : Type} (m k : String) (b : β) (L : List (String × β)) :
    List.lookup m ((k, b) :: L) = if m = k then some b else List.lookup m L := by
  by_cases hm : m = k
  · have hb : (m == k) = true := beq_iff_eq.mpr hm
    simp [List.lookup, hb, hm]
  · have hb : (m == k) = false := beq_eq_false_iff_ne.mpr hm
    simp [List.lookup, hb, hm]

/-- Lookup success survives prepending any entries. -/
lemma lookup_append_isSome {β : Type} (pre L : List (String × β)) (m : String)
    (h : (List.lookup m L).isSome) : (List.lookup m (pre ++ L)).isSome := by
  induction pre with
  | nil => simpa using h
  | cons kv rest ih =>
    obtain ⟨k, b⟩ := kv
    by_cases hm : m = k
    · rw [List.cons_append, lookup_cons, if_pos hm]; rfl
    · rw [List.cons_append, lookup_cons, if_neg hm]; exact ih

/-- Growing the visited set never increases the unseen count. -/
lemma unseen_mono (univ : List String) (st st' : LState)
    (h : ∀ x, x ∈ st.visited → x ∈ st'.visited) : unseen univ st' ≤ unseen univ st := by
  unfold unseen
  rw [← List.countP_eq_length_filter, ← List.countP_eq_length_filter]
  apply List.countP_mono_left
  intro a _ ha
  simp only [Bool.not_eq_true', decide_eq_false_iff_not] at *
  exact fun hx => ha (h a hx)

/-- A list counts strictly fewer elements under a stronger predicate that
rules out one of its members. -/
lemma countP_lt_of_mem {p q : String → Bool} (l : List String)
    (hpq : ∀ x, p x = true → q x = true) (n : String) (hn : n ∈ l)
    (hq : q n = true) (hp : p n = false) : l.countP p < l.countP q := by
  induction l with
  | nil => cases hn
  | cons a l ih =>
    rw [List.countP_cons, List.countP_cons]
    have hmono := List.countP_mono_left (l := l) (fun x _ hx => hpq x hx)
    rcases List.mem_cons.1 hn with rfl | hn'
    · rw [hp, hq]
      simp only [Bool.false_eq_true, if_false, if_true]
      omega
    · have h2 := ih hn'
      by_cases hpa : p a = true
      · rw [hpa, hpq a hpa]
        simp only [if_true]
        omega
      · rw [Bool.not_eq_true] at hpa
        rw [hpa]
        by_cases hqa : q a = true
        · rw [hqa]
          simp only [Bool.false_eq_true, if_false, if_true]
          omega
        · rw [Bool.not_eq_true] at hqa
          rw [hqa]
          simp only [Bool.false_eq_true, if_false]
          omega

/-- Marking an unvisited universe name strictly shrinks the unseen count:
the termination argument for the layer recursion. -/
lemma unseen_cons_lt (univ : List String) (st : LState) (n : String)
    (hn : n ∈ univ) (hv : n ∉ st.visited) :
    unseen univ (LState.mk st.layers (n :: st.visited)) < unseen univ st := by
  unfold unseen
  rw [← List.countP_eq_length_filter, ← List.countP_eq_length_filter]
  apply countP_lt_of_mem
  · intro x hx
    simp only [Bool.not_eq_true', decide_eq_false_iff_not, List.mem_cons, not_or] at *
    exact hx.2
  · exact List.mem_dedup.2 hn
  · simp [hv]
  · simp

/-- The threaded fold preserves any reflexive transitive step relation that
each recursive call satisfies. -/
lemma layerFold_rel (R : LState → LState → Prop) (hrefl : ∀ s, R s s)
    (htrans : ∀ a b c, R a b → R b c → R a c)
    (rec : String → LState → Option (Nat × LState))
    (hrec : ∀ p st v st', rec p st = some (v, st') → R st st') :
    ∀ ps st vs st', layerFold rec ps st = some (vs, st') → R st st' := by
  intro ps
  induction ps with
  | nil =>
    intro st vs st' h
    rw [layerFold] at h
    cases h
    exact hrefl _
  | cons p ps ih =>
    intro st vs st' h
    rw [layerFold] at h
    rcases h1 : rec p st with _ | ⟨v, st1⟩ <;> rw [h1] at h
    · cases h
    · simp only [] at h
      rcases h2 : layerFold rec ps st1 with _ | ⟨vs2, st2⟩ <;> rw [h2] at h <;> simp only [] at h
      · cases h
      · cases h
        exact htrans _ _ _ (hrec p st v st1 h1) (ih st1 _ _ h2)

/-- One layer-assignment call only prepends memo entries and grows the
visited set. -/
lemma assignLayerF_ext : ∀ fuel inc n st v st',
    assignLayerF fuel inc n st = some (v, st') →
    (∃ pre, st'.layers = pre ++ st.layers) ∧ ∀ x, x ∈ st.visited → x ∈ st'.visited := by
  intro fuel
  induction fuel with
  | zero =>
    intro inc n st v st' h
    rw [assignLayerF] at h
    cases h
  | succ fuel ih =>
    intro inc n st v st' h
    rw [assignLayerF] at h
    rcases hm : st.layers.lookup n with _ | w <;> rw [hm] at h <;> simp only [] at h
    · by_cases hv : n ∈ st.visited
      · rw [if_pos hv] at h
        cases h
        exact ⟨⟨[], rfl⟩, fun x hx => hx⟩
      · rw [if_neg hv] at h
        rcases hp : (inc.lookup n).getD [] with _ | ⟨p, ps⟩ <;> rw [hp] at h <;> simp only [] at h
        · cases h
          exact ⟨⟨[(n, 0)], rfl⟩, fun x hx => List.mem_cons_of_mem _ hx⟩
        · rcases hres : layerFold (assignLayerF fuel inc) (p :: ps)
            (LState.mk st.layers (n :: st.visited)) with _ | ⟨vs, st2⟩ <;> rw [hres] at h
          · cases h
          · cases h
            have hrel := layerFold_rel
              (fun a b => (∃ pre, b.layers = pre ++ a.layers) ∧ ∀ x, x ∈ a.visited → x ∈ b.visited)
              (fun s => ⟨⟨[], rfl⟩, fun x hx => hx⟩)
              (fun a b c hab hbc =>
                ⟨by
                  obtain ⟨pre1, h1⟩ := hab.1
                  obtain ⟨pre2, h2⟩ := hbc.1
                  exact ⟨pre2 ++ pre1, by rw [h2, h1, List.append_assoc]⟩,
                 fun x hx => hbc.2 x (hab.2 x hx)⟩)
              (assignLayerF fuel inc) (fun p st v st' hcall => ih inc p st v st' hcall)
              (p :: ps) (LState.mk st.layers (n :: st.visited)) vs st2 hres
            refine ⟨?_, ?_⟩
            · obtain ⟨pre, hpre⟩ := hrel.1
              exact ⟨(n, maxList vs + 1) :: pre, by simp [hpre]⟩
            · intro x hx
              exact hrel.2 x (List.mem_cons_of_mem _ hx)
    · cases h
      exact ⟨⟨[], rfl⟩, fun x hx => hx⟩

/-- At rest points the returned value is memoized under its name, except
when the call hit the in-progress guard and left the state untouched. -/
lemma assignLayerF_result : ∀ fuel inc n st v st',
    assignLayerF fuel inc n st = some (v, st') →
    st'.layers.lookup n = some v ∨ (n ∈ st.visited ∧ v = 0 ∧ st' = st) := by
  intro fuel inc n st v st' h
  match fuel with
  | 0 =>
    rw [assignLayerF] at h
    cases h
  | fuel + 1 =>
    rw [assignLayerF] at h
    rcases hm : st.layers.lookup n with _ | w <;> rw [hm] at h <;> simp only [] at h
    · by_cases hv : n ∈ st.visited
      · rw [if_pos hv] at h
        cases h
        exact Or.inr ⟨hv, rfl, rfl⟩
      · rw [if_neg hv] at h
        rcases hp : (inc.lookup n).getD [] with _ | ⟨p, ps⟩ <;> rw [hp] at h <;> simp only [] at h
        · cases h
          left
          rw [lookup_cons, if_pos rfl]
        · rcases hres : layerFold (assignLayerF fuel inc) (p :: ps)
            (LState.mk st.layers (n :: st.visited)) with _ | ⟨vs, st2⟩ <;> rw [hres] at h <;> simp only [] at h
          · cases h
          · cases h
            left
            rw [lookup_cons, if_pos rfl]
    · cases h
      left
      exact hm

/-- Every visited name is memoized or on the given in-progress list, and
one call preserves this. -/
lemma assignLayerF_vinv : ∀ fuel inc n st v st' (X : List String),
    (∀ m, m ∈ st.visited → (st.layers.lookup m).isSome = true ∨ m ∈ X) →
    assignLayerF fuel inc n st = some (v, st') →
    ∀ m, m ∈ st'.visited → (st'.layers.lookup m).isSome = true ∨ m ∈ X := by
  intro fuel
  induction fuel with
  | zero =>
    intro inc n st v st' X hin h
    rw [assignLayerF] at h
    cases h
  | succ fuel ih =>
    intro inc n st v st' X hin h
    rw [assignLayerF] at h
    rcases hm : st.layers.lookup n with _ | w <;> rw [hm] at h <;> simp only [] at h
    · by_cases hv : n ∈ st.visited
      · rw [if_pos hv] at h
        cases h
        exact hin
      · rw [if_neg hv] at h
        rcases hp : (inc.lookup n).getD [] with _ | ⟨p, ps⟩ <;> rw [hp] at h <;> simp only [] at h
        · cases h
          intro m hmem
          rcases List.mem_cons.1 hmem with rfl | hm'
          · left
            rw [lookup_cons, if_pos rfl]
            rfl
          · rcases hin m hm' with hs | hx
            · exact Or.inl (lookup_append_isSome [(n, 0)] st.layers m hs)
            · exact Or.inr hx
        · rcases hres : layerFold (assignLayerF fuel inc) (p :: ps)
            (LState.mk st.layers (n :: st.visited)) with _ | ⟨vs, st2⟩ <;> rw [hres] at h <;> simp only [] at h
          · cases h
          · cases h
            have hfold := layerFold_rel
              (fun a b =>
                (∀ m, m ∈ a.visited → (a.layers.lookup m).isSome = true ∨ m ∈ n :: X) →
                ∀ m, m ∈ b.visited → (b.layers.lookup m).isSome = true ∨ m ∈ n :: X)
              (fun s hs => hs)
              (fun a b c hab hbc ha => hbc (hab ha))
              (assignLayerF fuel inc)
              (fun p st v st' hcall ha => ih inc p st v st' (n :: X) ha hcall)
              (p :: ps) (LState.mk st.layers (n :: st.visited)) vs st2 hres
            have hst1 : ∀ m, m ∈ (LState.mk st.layers (n :: st.visited)).visited →
                ((LState.mk st.layers (n :: st.visited)).layers.lookup m).isSome = true ∨ m ∈ n :: X := by
              intro m hmem
              rcases List.mem_cons.1 hmem with rfl | hm'
              · exact Or.inr (List.mem_cons_self _ _)
              · rcases hin m hm' with hs | hx
                · exact Or.inl hs
                · exact Or.inr (List.mem_cons_of_mem _ hx)
            have hst2 := hfold hst1
            intro m hmem
            rcases hst2 m hmem with hs | hx
            · exact Or.inl (lookup_append_isSome [(n, maxList vs + 1)] st2.layers m hs)
            · rcases List.mem_cons.1 hx with rfl | hx'
              · left
                rw [lookup_cons, if_pos rfl]
                rfl
              · exact Or.inr hx'
    · cases h
      exact hin

/-- A memoized layer of an entity with no incoming edges is 0, and one
call preserves this. -/
lemma assignLayerF_noinc : ∀ fuel inc n st v st',
    (∀ m w, (inc.lookup m).getD [] = [] → st.layers.lookup m = some w → w = 0) →
    assignLayerF fuel inc n st = some (v, st') →
    ∀ m w, (inc.lookup m).getD [] = [] → st'.layers.lookup m = some w → w = 0 := by
  intro fuel
  induction fuel with
  | zero =>
    intro inc n st v st' hin h
    rw [assignLayerF] at h
    cases h
  | succ fuel ih =>
    intro inc n st v st' hin h
    rw [assignLayerF] at h
    rcases hm : st.layers.lookup n with _ | w0 <;> rw [hm] at h <;> simp only [] at h
    · by_cases hv : n ∈ st.visited
      · rw [if_pos hv] at h
        cases h
        exact hin
      · rw [if_neg hv] at h
        rcases hp : (inc.lookup n).getD [] with _ | ⟨p, ps⟩ <;> rw [hp] at h <;> simp only [] at h
        · cases h
          intro m w hnoinc hlk
          rw [lookup_cons] at hlk
          by_cases hmn : m = n
          · rw [if_pos hmn] at hlk
            cases hlk
            rfl
          · rw [if_neg hmn] at hlk
            exact hin m w hnoinc hlk
        · rcases hres : layerFold (assignLayerF fuel inc) (p :: ps)
            (LState.mk st.layers (n :: st.visited)) with _ | ⟨vs, st2⟩ <;> rw [hres] at h <;> simp only [] at h
          · cases h
          · cases h
            have hfold := layerFold_rel
              (fun a b =>
                (∀ m w, (inc.lookup m).getD [] = [] → a.layers.lookup m = some w → w = 0) →
                ∀ m w, (inc.lookup m).getD [] = [] → b.layers.lookup m = some w → w = 0)
              (fun s hs => hs)
              (fun a b c hab hbc ha => hbc (hab ha))
              (assignLayerF fuel inc)
              (fun p st v st' hcall ha => ih inc p st v st' ha hcall)
              (p :: ps) (LState.mk st.layers (n :: st.visited)) vs st2 hres
            have hst2 := hfold hin
            intro m w hnoinc hlk
            rw [lookup_cons] at hlk
            by_cases hmn : m = n
            · rw [hmn] at hnoinc
              rw [hnoinc] at hp
              cases hp
            · rw [if_neg hmn] at hlk
              exact hst2 m w hnoinc hlk
    · cases h
      exact hin

/-- Memo hit: the stored layer is returned and the state is untouched. -/
lemma assignLayerF_memo_eq (fuel : Nat) (inc : Incoming) (n : String) (st : LState) (w : Nat)
    (hm : st.layers.lookup n = some w) :
    assignLayerF (fuel + 1) inc n st = some (w, st) := by
  rw [assignLayerF, hm]

/-- In-progress hit (cycle back-edge): layer 0 is returned without
recursing and the state is untouched. -/
lemma assignLayerF_inprog_eq (fuel : Nat) (inc : Incoming) (n : String) (st : LState)
    (hm : st.layers.lookup n = none) (hv : n ∈ st.visited) :
    assignLayerF (fuel + 1) inc n st = some (0, st) := by
  rw [assignLayerF, hm]
  simp only []
  rw [if_pos hv]

/-- No incoming edges: the entity is assigned layer 0. -/
lemma assignLayerF_noinc_eq (fuel : Nat) (inc : Incoming) (n : String) (st : LState)
    (hm : st.layers.lookup n = none) (hv : n ∉ st.visited)
    (hp : (inc.lookup n).getD [] = []) :
    assignLayerF (fuel + 1) inc n st =
      some (0, LState.mk ((n, 0) :: st.layers) (n :: st.visited)) := by
  rw [assignLayerF, hm]
  simp only []
  rw [if_neg hv, hp]

/-- Incoming edges: the entity is assigned one plus the maximum of the
recursively computed predecessor layers (threaded left to right). -/
lemma assignLayerF_rec_eq (fuel : Nat) (inc : Incoming) (n : String) (st : LState)
    (p : String) (ps : List String) (vs : List Nat) (st2 : LState)
    (hm : st.layers.lookup n = none) (hv : n ∉ st.visited)
    (hp : (inc.lookup n).getD [] = p :: ps)
    (hf : layerFold (assignLayerF fuel inc) (p :: ps)
      (LState.mk st.layers (n :: st.visited)) = some (vs, st2)) :
    assignLayerF (fuel + 1) inc n st =
      some (maxList vs + 1, LState.mk ((n, maxList vs + 1) :: st2.layers) st2.visited) := by
  rw [assignLayerF, hm]
  simp only []
  rw [if_neg hv, hp]
  simp only []
  rw [hf]

/-- The threaded fold succeeds when every recursive call succeeds below
the unseen budget. -/
lemma layerFold_suff (univ : List String) (fuel : Nat) (inc : Incoming)
    (IH : ∀ n st, n ∈ univ → unseen univ st < fuel → (assignLayerF fuel inc n st).isSome = true) :
    ∀ ps st, (∀ p, p ∈ ps → p ∈ univ) → unseen univ st < fuel →
      (layerFold (assignLayerF fuel inc) ps st).isSome = true := by
  intro ps
  induction ps with
  | nil =>
    intro st _ _
    rw [layerFold]
    rfl
  | cons p ps ih =>
    intro st hps hu
    rw [layerFold]
    have h1 := IH p st (hps p (List.mem_cons_self _ _)) hu
    rcases hs : assignLayerF fuel inc p st with _ | ⟨v, st1⟩
    · rw [hs] at h1
      cases h1
    · simp only []
      have hext := assignLayerF_ext fuel inc p st v st1 hs
      have hu1 : unseen univ st1 < fuel :=
        lt_of_le_of_lt (unseen_mono univ st st1 hext.2) hu
      have h2 := ih st1 (fun q hq => hps q (List.mem_cons_of_mem _ hq)) hu1
      rcases h2' : layerFold (assignLayerF fuel inc) ps st1 with _ | ⟨vs, st2⟩
      · rw [h2'] at h2
        cases h2
      · rfl

/-- Fuel exceeding the number of unvisited universe names suffices: the
layer recursion never runs out. -/
lemma assignLayerF_suff : ∀ fuel univ inc, predsClosed inc univ →
    ∀ n st, n ∈ univ → unseen univ st < fuel → (assignLayerF fuel inc n st).isSome = true := by
  intro fuel
  induction fuel with
  | zero =>
    intro univ inc hc n st hn hu
    exact absurd hu (Nat.not_lt_zero _)
  | succ fuel ih =>
    intro univ inc hc n st hn hu
    rcases hm : st.layers.lookup n with _ | w
    · by_cases hv : n ∈ st.visited
      · rw [assignLayerF_inprog_eq fuel inc n st hm hv]
        rfl
      · rcases hp : (inc.lookup n).getD [] with _ | ⟨p, ps⟩
        · rw [assignLayerF_noinc_eq fuel inc n st hm hv hp]
          rfl
        · have hsub : ∀ q, q ∈ p :: ps → q ∈ univ := by
            intro q hq
            have hl : inc.lookup n = some (p :: ps) := by
              rcases hl0 : inc.lookup n with _ | l
              · rw [hl0] at hp
                cases hp
              · rw [hl0] at hp
                simp only [Option.getD_some] at hp
                rw [hp]
            exact hc n (p :: ps) hl q hq
          have hlt := unseen_cons_lt univ st n hn hv
          have hu1 : unseen univ (LState.mk st.layers (n :: st.visited)) < fuel := by omega
          have hf := layerFold_suff univ fuel inc
            (fun n st hn hu => ih univ inc hc n st hn hu)
            (p :: ps) (LState.mk st.layers (n :: st.visited)) hsub hu1
          rcases hres : layerFold (assignLayerF fuel inc) (p :: ps)
              (LState.mk st.layers (n :: st.visited)) with _ | ⟨vs, st2⟩
          · rw [hres] at hf
            cases hf
          · rw [assignLayerF_rec_eq fuel inc n st p ps vs st2 hm hv hp hres]
            rfl
    · rw [assignLayerF_memo_eq fuel inc n st w hm]
      rfl

/-- The seed loop only prepends memo entries and grows the visited set. -/
lemma assignSeedsF_ext : ∀ fuel inc ns st st',
    assignSeedsF fuel inc ns st = some st' →
    (∃ pre, st'.layers = pre ++ st.layers) ∧ ∀ x, x ∈ st.visited → x ∈ st'.visited := by
  intro fuel inc ns
  induction ns with
  | nil =>
    intro st st' h
    rw [assignSeedsF] at h
    cases h
    exact ⟨⟨[], rfl⟩, fun x hx => hx⟩
  | cons n ns ih =>
    intro st st' h
    rw [assignSeedsF] at h
    rcases h1 : assignLayerF fuel inc n st with _ | ⟨v, st1⟩ <;> rw [h1] at h <;> simp only [] at h
    · cases h
    · have hext1 := assignLayerF_ext fuel inc n st v st1 h1
      have hext2 := ih st1 st' h
      refine ⟨?_, fun x hx => hext2.2 x (hext1.2 x hx)⟩
      obtain ⟨pre1, hp1⟩ := hext1.1
      obtain ⟨pre2, hp2⟩ := hext2.1
      exact ⟨pre2 ++ pre1, by rw [hp2, hp1, List.append_assoc]⟩

/-- The seed loop succeeds when the budget exceeds the unseen count. -/
lemma assignSeedsF_suff (univ : List String) (fuel : Nat) (inc : Incoming)
    (hc : predsClosed inc univ) :
    ∀ ns st, (∀ n, n ∈ ns → n ∈ univ) → unseen univ st < fuel →
      (assignSeedsF fuel inc ns st).isSome = true := by
  intro ns
  induction ns with
  | nil =>
    intro st _ _
    rw [assignSeedsF]
    rfl
  | cons n ns ih =>
    intro st hns hu
    rw [assignSeedsF]
    have h1 := assignLayerF_suff fuel univ inc hc n st (hns n (List.mem_cons_self _ _)) hu
    rcases hs : assignLayerF fuel inc n st with _ | ⟨v, st1⟩
    · rw [hs] at h1
      cases h1
    · have hext := assignLayerF_ext fuel inc n st v st1 hs
      have hu1 : unseen univ st1 < fuel :=
        lt_of_le_of_lt (unseen_mono univ st st1 hext.2) hu
      exact ih st1 (fun q hq => hns q (List.mem_cons_of_mem _ hq)) hu1

/-- After the seed loop from an all-memoized rest point, every seed name
is memoized and the rest point property is kept. -/
lemma assignSeedsF_covers : ∀ fuel inc ns st st',
    (∀ m, m ∈ st.visited → (st.layers.lookup m).isSome = true) →
    assignSeedsF fuel inc ns st = some st' →
    (∀ m, m ∈ st'.visited → (st'.layers.lookup m).isSome = true) ∧
    ∀ n, n ∈ ns → (st'.layers.lookup n).isSome = true := by
  intro fuel inc ns
  induction ns with
  | nil =>
    intro st st' hrest h
    rw [assignSeedsF] at h
    cases h
    exact ⟨hrest, fun n hn => absurd hn (List.not_mem_nil _)⟩
  | cons n ns ih =>
    intro st st' hrest h
    rw [assignSeedsF] at h
    rcases h1 : assignLayerF fuel inc n st with _ | ⟨v, st1⟩ <;> rw [h1] at h <;> simp only [] at h
    · cases h
    · have hrest1 : ∀ m, m ∈ st1.visited → (st1.layers.lookup m).isSome = true := by
        have hvinv := assignLayerF_vinv fuel inc n st v st1 []
          (fun m hm => Or.inl (hrest m hm)) h1
        intro m hm
        rcases hvinv m hm with hs | hx
        · exact hs
        · cases hx
      have hmemo1 : (st1.layers.lookup n).isSome = true := by
        rcases assignLayerF_result fuel inc n st v st1 h1 with hs | ⟨hvis, _, hst⟩
        · rw [hs]
          rfl
        · rw [hst]
          exact hrest n hvis
      have hrec := ih st1 st' hrest1 h
      refine ⟨hrec.1, ?_⟩
      intro q hq
      rcases List.mem_cons.1 hq with rfl | hq'
      · obtain ⟨pre, hpre⟩ := (assignSeedsF_ext fuel inc ns st1 st' h).1
        rw [hpre]
        exact lookup_append_isSome pre st1.layers q hmemo1
      · exact hrec.2 q hq'

/-- Lookup through one push: only the pushed key's list changes, by the
appended source. -/
lemma lookup_pushIncoming (m : Incoming) (key v k : String) :
    List.lookup k (pushIncoming m key v) =
      (List.lookup k m).map (fun l => if k = key then l ++ [v] else l) := by
  induction m with
  | nil => rfl
  | cons kv rest ih =>
    obtain ⟨k0, l0⟩ := kv
    by_cases hk : k = k0
    · by_cases hkey : k0 = key
      · rw [pushIncoming]
        simp only [List.map_cons, if_pos hkey]
        rw [lookup_cons, lookup_cons, if_pos hk, if_pos hk]
        rw [hk, hkey]
        simp
      · rw [pushIncoming]
        simp only [List.map_cons, if_neg hkey]
        rw [lookup_cons, lookup_cons, if_pos hk, if_pos hk]
        rw [hk]
        simp [hkey]
    · rw [pushIncoming]
      simp only [List.map_cons]
      by_cases hkey : k0 = key
      · rw [if_pos hkey, lookup_cons, lookup_cons, if_neg hk, if_neg hk]
        rw [← pushIncoming] at *
        exact ih
      · rw [if_neg hkey, lookup_cons, lookup_cons, if_neg hk, if_neg hk]
        rw [← pushIncoming] at *
        exact ih

/-- Folding pushes of sources drawn from a set keeps every predecessor
list inside that set. -/
lemma foldl_push_closed (S : List String) :
    ∀ (es : List (String × String)) (m : Incoming),
      (∀ k l, List.lookup k m = some l → ∀ x, x ∈ l → x ∈ S) →
      (∀ e, e ∈ es → e.1 ∈ S) →
      ∀ k l, List.lookup k (es.foldl (fun m e => pushIncoming m e.2 e.1) m) = some l →
        ∀ x, x ∈ l → x ∈ S := by
  intro es
  induction es with
  | nil =>
    intro m hm _
    simpa using hm
  | cons e es ih =>
    intro m hm hes
    rw [List.foldl_cons]
    apply ih
    · intro k l hl x hx
      rw [lookup_pushIncoming] at hl
      rcases hlk : List.lookup k m with _ | l0 <;> rw [hlk] at hl
      · cases hl
      · simp only [Option.map_some', Option.some.injEq] at hl
        by_cases hk : k = e.2
        · rw [if_pos hk] at hl
          subst hl
          rcases List.mem_append.1 hx with hxl | hxr
          · exact hm k l0 hlk x hxl
          · rw [List.mem_singleton.1 hxr]
            exact hes e (List.mem_cons_self _ _)
        · rw [if_neg hk] at hl
          subst hl
          exact hm k l0 hlk x hx
    · exact fun e' he' => hes e' (List.mem_cons_of_mem _ he')

/-- The initial incoming map has only empty predecessor lists. -/
lemma lookup_init (entities : List String) (k : String) (l : List String)
    (h : List.lookup k (entities.map (fun n => (n, ([] : List String)))) = some l) :
    l = [] := by
  induction entities with
  | nil => cases h
  | cons a es ih =>
    rw [List.map_cons] at h
    by_cases hk : k = a
    · rw [lookup_cons, if_pos hk] at h
      cases h
      rfl
    · rw [lookup_cons, if_neg hk] at h
      exact ih h

/-- Every predecessor in the built incoming map is an edge source, hence
one of the graph names. -/
lemma buildIncoming_closed (entities : List String) (edges : List (String × String)) :
    predsClosed (buildIncoming entities edges) (layerNames entities edges) := by
  intro k l hl x hx
  unfold buildIncoming at hl
  refine foldl_push_closed (layerNames entities edges) edges
    (entities.map (fun n => (n, ([] : List String)))) ?_ ?_ k l hl x hx
  · intro k' l' hl' y hy
    rw [lookup_init entities k' l' hl'] at hy
    cases hy
  · intro e he
    exact List.mem_append_right _ (List.mem_map_of_mem Prod.fst he)

/-- The budget of one more than the number of distinct graph names always
suffices: the complete layer assignment never fails. -/
lemma assignLayers_isSome (entities : List String) (edges : List (String × String)) :
    (assignLayers entities edges).isSome = true := by
  unfold assignLayers
  apply assignSeedsF_suff (layerNames entities edges) _ _ (buildIncoming_closed entities edges)
  · intro n hn
    exact List.mem_append_left _ hn
  · unfold layerFuel unseen
    simp

/-- The seed loop keeps every memoized no-incoming entity at layer 0. -/
lemma assignSeedsF_noinc : ∀ fuel inc ns st st',
    (∀ m w, (inc.lookup m).getD [] = [] → st.layers.lookup m = some w → w = 0) →
    assignSeedsF fuel inc ns st = some st' →
    ∀ m w, (inc.lookup m).getD [] = [] → st'.layers.lookup m = some w → w = 0 := by
  intro fuel inc ns
  induction ns with
  | nil =>
    intro st st' hin h
    rw [assignSeedsF] at h
    cases h
    exact hin
  | cons n ns ih =>
    intro st st' hin h
    rw [assignSeedsF] at h
    rcases h1 : assignLayerF fuel inc n st with _ | ⟨v, st1⟩ <;> rw [h1] at h <;> simp only [] at h
    · cases h
    · exact ih st1 st' (assignLayerF_noinc fuel inc n st v st1 hin h1) h

/-- Claim C6: the layer assignment gives every entity a (non-negative,
by type) natural-number layer, and the computation satisfies the claimed
recurrence at every call: a memo-free entity found in progress (a cycle
back-edge) contributes 0 and is not recursed into; an entity with no
incoming edges gets layer 0 (in particular every no-incoming entity ends
memoized at 0); an entity with incoming edges gets one plus the maximum
of its recursively computed predecessor layers; and the whole computation
terminates on every graph, cyclic or acyclic, within a recursion budget
of one more than the number of distinct graph names. -/
theorem c6_layer_assignment (entities : List String) (edges : List (String × String)) :
    (∃ st, assignLayers entities edges = some st ∧
      (∀ n, n ∈ entities → ∃ v, st.layers.lookup n = some v) ∧
      (∀ n, n ∈ entities → ((buildIncoming entities edges).lookup n).getD [] = [] →
        st.layers.lookup n = some 0)) ∧
    (∀ fuel inc n st, st.layers.lookup n = none → n ∈ st.visited →
      assignLayerF (fuel + 1) inc n st = some (0, st)) ∧
    (∀ fuel inc n st, st.layers.lookup n = none → n ∉ st.visited →
      (inc.lookup n).getD [] = [] →
      assignLayerF (fuel + 1) inc n st =
        some (0, LState.mk ((n, 0) :: st.layers) (n :: st.visited))) ∧
    (∀ fuel inc n st p ps vs st2, st.layers.lookup n = none → n ∉ st.visited →
      (inc.lookup n).getD [] = p :: ps →
      layerFold (assignLayerF fuel inc) (p :: ps)
        (LState.mk st.layers (n :: st.visited)) = some (vs, st2) →
      assignLayerF (fuel + 1) inc n st =
        some (maxList vs + 1,
          LState.mk ((n, maxList vs + 1) :: st2.layers) st2.visited)) := by
  refine ⟨?_, ?_, ?_, ?_⟩
  · have htot := assignLayers_isSome entities edges
    rcases hres : assignLayers entities edges with _ | st
    · rw [hres] at htot
      cases htot
    · have hseed : assignSeedsF (layerFuel entities edges) (buildIncoming entities edges)
          entities (LState.mk [] []) = some st := hres
      have hcov := assignSeedsF_covers (layerFuel entities edges)
        (buildIncoming entities edges) entities (LState.mk [] []) st
        (fun m hm => absurd hm (List.not_mem_nil _)) hseed
      have hnz := assignSeedsF_noinc (layerFuel entities edges)
        (buildIncoming entities edges) entities (LState.mk [] []) st
        (fun m w _ hl => by cases hl) hseed
      refine ⟨st, rfl, ?_, ?_⟩
      · intro n hn
        exact Option.isSome_iff_exists.1 (hcov.2 n hn)
      · intro n hn hni
        obtain ⟨v, hv⟩ := Option.isSome_iff_exists.1 (hcov.2 n hn)
        rw [hv, hnz n v hni hv]
  · intro fuel inc n st hm hv
    exact assignLayerF_inprog_eq fuel inc n st hm hv
  · intro fuel inc n st hm hv hp
    exact assignLayerF_noinc_eq fuel inc n st hm hv hp
  · intro fuel inc n st p ps vs st2 hm hv hp hf
    exact assignLayerF_rec_eq fuel inc n st p ps vs st2 hm hv hp hf

/-- The top-level loop makes no progress from the stuck state on input
`42`: the numeric token matches no branch of `parseTopLevel`, which
consumes nothing, so every additional loop budget is exhausted. -/
theorem megaLoop_stuck42 : ∀ fuel, megaLoop fuel none emptyAST stuck42 = PRes.div := by
  intro fuel
  induction fuel with
  | zero => rfl
  | succ n ih => exact ih

/-- Claim C1 (code bug): the claim says the top-level loop consumes at
least one token per iteration and silently skips unrecognized constructs;
in the code, `parseTopLevel` returns null without consuming for an
unrecognized token, so `parseContent`'s loop never advances.  On input
`42` (a number token under no section) the parse diverges for every step
budget. -/
theorem c1_topLevel_nontermination :
    ∀ fuel : Nat, parseF fuel none ("42") none = PRes.div := by
  intro fuel
  exact megaLoop_stuck42 fuel

/-- Claim C2: a successfully parsed connector has client role exactly when
its declaration begins with the `*` marker — for every token stream and
position, hence regardless of the port list that follows (including an
empty one). -/
theorem parseConnector_role (st : TState) (c : Connector) (st' : TState)
    (h : parseConnector st = .ok (c, st')) :
    (c.type = ConnectorType.clicon ↔ (peekT st).type = .STAR) := by
  have hpeek : (peekT st).type = TokenType.STAR ↔ checkT .STAR st = true := by
    simp [checkT]
  rw [hpeek]
  cases hc : checkT .STAR st
  · simp only [parseConnector, matchT, hc, Bool.false_eq_true, if_false] at h
    rcases he : expectT .IDENTIFIER ("Expected connector name") st with p | e | _ <;>
      rw [he] at h <;> simp only [pbind] at h
    · obtain ⟨nameTok, st2⟩ := p
      cases hlp : checkT .LPAREN st2
      · simp only [matchT, hlp, Bool.false_eq_true, if_false] at h
        simp only [PRes.ok.injEq, Prod.mk.injEq] at h
        obtain ⟨hc1, -⟩ := h
        subst hc1
        simp
      · simp only [matchT, hlp, if_true] at h
        rcases hps : portSpecsLoopF (((advanceT st2).2).tokens.length + 1) ((advanceT st2).2)
            with q | e | _ <;> rw [hps] at h <;> simp only [pbind] at h
        · obtain ⟨ports, st4⟩ := q
          rcases hr : expectT .RPAREN ("Expected closing parenthesis") st4 with r | e | _ <;>
            rw [hr] at h <;> simp only [pbind] at h
          · obtain ⟨rtok, st5⟩ := r
            simp only [PRes.ok.injEq, Prod.mk.injEq] at h
            obtain ⟨hc1, -⟩ := h
            subst hc1
            simp
          · cases h
          · cases h
        · cases h
        · cases h
    · cases h
    · cases h
  · simp only [parseConnector, matchT, hc, if_true] at h
    rcases he : expectT .IDENTIFIER ("Expected connector name") ((advanceT st).2) with p | e | _ <;>
      rw [he] at h <;> simp only [pbind] at h
    · obtain ⟨nameTok, st2⟩ := p
      cases hlp : checkT .LPAREN st2
      · simp only [matchT, hlp, Bool.false_eq_true, if_false] at h
        simp only [PRes.ok.injEq, Prod.mk.injEq] at h
        obtain ⟨hc1, -⟩ := h
        subst hc1
        simp
      · simp only [matchT, hlp, if_true] at h
        rcases hps : portSpecsLoopF (((advanceT st2).2).tokens.length + 1) ((advanceT st2).2)
            with q | e | _ <;> rw [hps] at h <;> simp only [pbind] at h
        · obtain ⟨ports, st4⟩ := q
          rcases hr : expectT .RPAREN ("Expected closing parenthesis") st4 with r | e | _ <;>
            rw [hr] at h <;> simp only [pbind] at h
          · obtain ⟨rtok, st5⟩ := r
            simp only [PRes.ok.injEq, Prod.mk.injEq] at h
            obtain ⟨hc1, -⟩ := h
            subst hc1
            simp
          · cases h
          · cases h
        · cases h
        · cases h
    · cases h
    · cases h

/-- Witness for C2 at a concrete input: the star-marked, port-free
connector `* x` parses to client role. -/
theorem parseConnector_role_witness :
    connStar.type = ConnectorType.clicon ↔ (peekT stStar).type = .STAR :=
  parseConnector_role stStar connStar stStarOut (by rfl)


/-- `liftC` changes only the token stream and the produced node: the
include bookkeeping fields are untouched. -/
theorem liftC_frame {α : Type} (f : TState → PRes (α × TState)) (g : α → TopNode)
    (st : PState) (nd : Option TopNode) (st1 : PState)
    (h : liftC f g st = .ok (nd, st1)) :
    st1.includedPaths = st.includedPaths ∧ st1.resolveLog = st.resolveLog := by
  unfold liftC at h
  rcases hf : f st.ts with p | e | _ <;> rw [hf] at h
  · obtain ⟨a, ts1⟩ := p
    simp only [PRes.ok.injEq, Prod.mk.injEq] at h
    obtain ⟨-, h2⟩ := h
    subst h2
    exact ⟨rfl, rfl⟩
  · cases h
  · cases h


/-- `parseTopLevel` never changes `includedPaths` or the resolution log:
only `processInclude` does. -/
theorem parseTopLevelF_frame (st : PState) (nd : Option TopNode) (st1 : PState)
    (h : parseTopLevelF st = .ok (nd, st1)) :
    st1.includedPaths = st.includedPaths ∧ st1.resolveLog = st.resolveLog := by
  unfold parseTopLevelF at h
  cases h0 : checkT .SECTION_NODECLASS st.ts <;> simp only [h0, Bool.false_eq_true, if_false, if_true] at h
  rotate_left
  · simp only [PRes.ok.injEq, Prod.mk.injEq] at h
    obtain ⟨-, h2⟩ := h; subst h2; exact ⟨rfl, rfl⟩
  cases h1 : checkT .SECTION_LINKCLASS st.ts <;> simp only [h1, Bool.false_eq_true, if_false, if_true] at h
  rotate_left
  · simp only [PRes.ok.injEq, Prod.mk.injEq] at h
    obtain ⟨-, h2⟩ := h; subst h2; exact ⟨rfl, rfl⟩
  cases h2 : checkT .SECTION_INSTANCES st.ts <;> simp only [h2, Bool.false_eq_true, if_false, if_true] at h
  rotate_left
  · simp only [PRes.ok.injEq, Prod.mk.injEq] at h
    obtain ⟨-, h2'⟩ := h; subst h2'; exact ⟨rfl, rfl⟩
  cases h3 : checkT .SECTION_NATS st.ts <;> simp only [h3, Bool.false_eq_true, if_false, if_true] at h
  rotate_left
  · simp only [PRes.ok.injEq, Prod.mk.injEq] at h
    obtain ⟨-, h2'⟩ := h; subst h2'; exact ⟨rfl, rfl⟩
  cases h4 : checkT .SECTION_CONNECTIONS st.ts <;> simp only [h4, Bool.false_eq_true, if_false, if_true] at h
  rotate_left
  · simp only [PRes.ok.injEq, Prod.mk.injEq] at h
    obtain ⟨-, h2'⟩ := h; subst h2'; exact ⟨rfl, rfl⟩
  cases h5 : checkT .INCLUDE st.ts <;> simp only [h5, Bool.false_eq_true, if_false, if_true] at h
  rotate_left
  · exact liftC_frame _ _ _ _ _ h
  cases h6 : (st.currentSection == some Sect.nodeclass && checkT .IDENTIFIER st.ts) <;>
    simp only [h6, Bool.false_eq_true, if_false, if_true] at h
  rotate_left
  · exact liftC_frame _ _ _ _ _ h
  cases h7 : (st.currentSection == some Sect.linkclass && checkT .IDENTIFIER st.ts) <;>
    simp only [h7, Bool.false_eq_true, if_false, if_true] at h
  rotate_left
  · exact liftC_frame _ _ _ _ _ h
  cases h8 : (st.currentSection == some Sect.instances && checkT .IDENTIFIER st.ts) <;>
    simp only [h8, Bool.false_eq_true, if_false, if_true] at h
  rotate_left
  · exact liftC_frame _ _ _ _ _ h
  cases h9 : (st.currentSection == some Sect.nats && checkT .AT st.ts) <;>
    simp only [h9, Bool.false_eq_true, if_false, if_true] at h
  rotate_left
  · exact liftC_frame _ _ _ _ _ h
  cases h10 : (st.currentSection == some Sect.connections && checkT .IDENTIFIER st.ts) <;>
    simp only [h10, Bool.false_eq_true, if_false, if_true] at h
  rotate_left
  · exact liftC_frame _ _ _ _ _ h
  simp only [PRes.ok.injEq, Prod.mk.injEq] at h
  obtain ⟨-, h2'⟩ := h; subst h2'; exact ⟨rfl, rfl⟩

/-- The loop invariant behind resolve-at-most-once: the resolution log
stays duplicate-free and inside the monotonically growing visited set. -/
theorem megaLoop_resolveInv : ∀ fuel r ast st out,
    megaLoop fuel r ast st = .ok out → ResolveInv st →
    ResolveInv out.2 ∧ st.includedPaths ⊆ out.2.includedPaths := by
  intro fuel
  induction fuel with
  | zero =>
    intro r ast st out h _
    cases h
  | succ n ih =>
    intro r ast st out h hInv
    rw [megaLoop] at h
    split at h
    · simp only [PRes.ok.injEq] at h
      subst h
      exact ⟨hInv, fun x hx => hx⟩
    · rcases hpt : parseTopLevelF st with p | e | _ <;> rw [hpt] at h
      rotate_left
      · cases h
      · cases h
      obtain ⟨nd, st1⟩ := p
      have hfr := parseTopLevelF_frame st nd st1 hpt
      have hInv1 : ResolveInv st1 := by
        unfold ResolveInv at hInv ⊢
        rw [hfr.1, hfr.2]
        exact hInv
      have hsub1 : st.includedPaths ⊆ st1.includedPaths := by
        rw [hfr.1]
        exact fun x hx => hx
      rcases nd with _ | nd
      · have := ih r ast st1 out h hInv1
        exact ⟨this.1, fun x hx => this.2 (hsub1 hx)⟩
      cases nd with
      | ncls m =>
        have := ih r _ st1 out h hInv1
        exact ⟨this.1, fun x hx => this.2 (hsub1 hx)⟩
      | lcls m =>
        have := ih r _ st1 out h hInv1
        exact ⟨this.1, fun x hx => this.2 (hsub1 hx)⟩
      | inst m =>
        have := ih r _ st1 out h hInv1
        exact ⟨this.1, fun x hx => this.2 (hsub1 hx)⟩
      | natn m =>
        have := ih r _ st1 out h hInv1
        exact ⟨this.1, fun x hx => this.2 (hsub1 hx)⟩
      | conn m =>
        have := ih r _ st1 out h hInv1
        exact ⟨this.1, fun x hx => this.2 (hsub1 hx)⟩
      | incl i =>
        cases r with
        | none =>
          have := ih none _ st1 out h hInv1
          exact ⟨this.1, fun x hx => this.2 (hsub1 hx)⟩
        | some f =>
          simp only [] at h
          by_cases hm : i.path ∈ st1.includedPaths
          · rw [if_pos hm] at h
            have := ih (some f) _ st1 out h hInv1
            exact ⟨this.1, fun x hx => this.2 (hsub1 hx)⟩
          · rw [if_neg hm] at h
            split at h
            · cases h
            · cases h
            rename_i inner st3 heq
            split at heq
            · cases heq
            rename_i toks ht
            have h2 := ih (some f) emptyAST _ (inner, st3) heq
              (by
                refine ⟨?_, ?_⟩
                · show (st1.resolveLog ++ [i.path]).Nodup
                  rw [List.nodup_append]
                  refine ⟨hInv1.1, List.nodup_singleton _, ?_⟩
                  intro a ha hb
                  simp only [List.mem_singleton] at hb
                  subst hb
                  exact hm (hInv1.2 _ ha)
                · show ∀ p ∈ st1.resolveLog ++ [i.path], p ∈ i.path :: st1.includedPaths
                  intro p hp
                  rcases List.mem_append.1 hp with hp | hp
                  · exact List.mem_cons_of_mem _ (hInv1.2 p hp)
                  · simp only [List.mem_singleton] at hp
                    subst hp
                    exact List.mem_cons_self _ _)
            have h3 := ih (some f) _ _ out h h2.1
            refine ⟨h3.1, fun x hx => h3.2 ?_⟩
            exact h2.2 (List.mem_cons_of_mem _ (hsub1 hx))

/-- Claim C3: processing one include changes the outer AST only by
appending the included parse's node classes and link classes in order;
instances, NATs, connections and the includes list are unchanged, and the
token stream, position, current path and current section are restored. -/
theorem processInclude_frame (fuel : Nat) (r : Option Resolver) (i : Include)
    (ast : AST) (st : PState) (ast' : AST) (st' : PState)
    (h : processIncludeF fuel r i ast st = .ok (ast', st')) :
    ast'.instances = ast.instances ∧ ast'.nats = ast.nats ∧
    ast'.connections = ast.connections ∧ ast'.includes = ast.includes ∧
    st'.ts = st.ts ∧ st'.currentPath = st.currentPath ∧
    st'.currentSection = st.currentSection ∧
    ((ast'.nodeClasses = ast.nodeClasses ∧ ast'.linkClasses = ast.linkClasses) ∨
      ∃ f inner st3, r = some f ∧
        parseContentF fuel r (f i.path st.currentPath)
          ({ st with includedPaths := i.path :: st.includedPaths,
                     resolveLog := st.resolveLog ++ [i.path],
                     currentPath := some i.path }) = .ok (inner, st3) ∧
        ast'.nodeClasses = ast.nodeClasses ++ inner.nodeClasses ∧
        ast'.linkClasses = ast.linkClasses ++ inner.linkClasses) := by
  cases r with
  | none =>
    simp only [processIncludeF] at h
    simp only [PRes.ok.injEq, Prod.mk.injEq] at h
    obtain ⟨h1, h2⟩ := h
    subst h1; subst h2
    simp
  | some f =>
    simp only [processIncludeF] at h
    by_cases hm : i.path ∈ st.includedPaths
    · rw [if_pos hm] at h
      simp only [PRes.ok.injEq, Prod.mk.injEq] at h
      obtain ⟨h1, h2⟩ := h
      subst h1; subst h2
      simp
    · rw [if_neg hm] at h
      rcases hp : parseContentF fuel (some f) (f i.path st.currentPath)
          ({ st with includedPaths := i.path :: st.includedPaths,
                     resolveLog := st.resolveLog ++ [i.path],
                     currentPath := some i.path }) with q | e | _ <;> rw [hp] at h
      · obtain ⟨inner, st3⟩ := q
        simp only [PRes.ok.injEq, Prod.mk.injEq] at h
        obtain ⟨h1, h2⟩ := h
        subst h1; subst h2
        refine ⟨rfl, rfl, rfl, rfl, rfl, rfl, rfl, Or.inr ⟨f, inner, st3, rfl, hp, rfl, rfl⟩⟩
      · cases h
      · cases h

/-- Witness for C3 at a concrete input: processing `include "lib"` against
the one-file resolver `rLib` leaves the (empty) instance collections and
the saved stream untouched. -/
theorem processInclude_frame_witness :
    astLibInc.instances = emptyAST.instances ∧ stAfterLib.ts = stEmptyP.ts :=
  ⟨(processInclude_frame 50 (some rLib) incLib emptyAST stEmptyP astLibInc stAfterLib (by rfl)).1,
   (processInclude_frame 50 (some rLib) incLib emptyAST stEmptyP astLibInc stAfterLib (by rfl)).2.2.2.2.1⟩

/-- Claim C4: an include whose path is already visited is a complete no-op
(zero node/link classes added, no resolution); a successful top-level
parse with a resolver never resolves any path twice (a duplicate-free
resolution log); and include processing never touches the includes list,
which the loop grows by one for every directive encountered. -/
theorem c4_include_visited_once :
    (∀ fuel r i ast st, i.path ∈ st.includedPaths →
        processIncludeF fuel r i ast st = .ok (ast, st)) ∧
    (∀ fuel r input fp a st', parseF fuel (some r) input fp = .ok (a, st') →
        st'.resolveLog.Nodup) ∧
    (∀ fuel r i ast st a st', processIncludeF fuel r i ast st = .ok (a, st') →
        a.includes = ast.includes) := by
  refine ⟨?_, ?_, ?_⟩
  · intro fuel r i ast st hmem
    cases r with
    | none => rfl
    | some f =>
      simp only [processIncludeF]
      rw [if_pos hmem]
  · intro fuel r input fp a st' h
    unfold parseF parseContentF at h
    rcases ht : tokenize (input.data) with e | toks <;> rw [ht] at h
    · cases h
    · have := megaLoop_resolveInv fuel (some r) emptyAST _ (a, st') h
        ⟨List.nodup_nil, fun p hp => absurd hp (List.not_mem_nil p)⟩
      exact this.1.1
  · intro fuel r i ast st a st' h
    cases r with
    | none =>
      simp only [processIncludeF] at h
      simp only [PRes.ok.injEq, Prod.mk.injEq] at h
      rw [← h.1]
    | some f =>
      simp only [processIncludeF] at h
      by_cases hm : i.path ∈ st.includedPaths
      · rw [if_pos hm] at h
        simp only [PRes.ok.injEq, Prod.mk.injEq] at h
        rw [← h.1]
      · rw [if_neg hm] at h
        split at h
        · cases h
        · cases h
        simp only [PRes.ok.injEq, Prod.mk.injEq] at h
        rw [← h.1]

/-- Witness for C4 at concrete inputs: re-including the already visited
`lib` is a no-op, the duplicate-free log of a small parse, and the
includes-list frame of one concrete include. -/
theorem c4_include_visited_once_witness :
    processIncludeF 1 (some rLib) incLib emptyAST stVisitedLib = .ok (emptyAST, stVisitedLib) ∧
    stIncOnly.resolveLog.Nodup ∧
    emptyAST.includes = emptyAST.includes :=
  ⟨c4_include_visited_once.1 1 (some rLib) incLib emptyAST stVisitedLib (by decide),
   c4_include_visited_once.2.1 50 rEmpty ("include \"lib\"") none astIncOnly stIncOnly (by rfl),
   c4_include_visited_once.2.2 50 (some rEmpty) incLib emptyAST stEmptyP emptyAST stAfterLib (by rfl)⟩

/-- Claim C9 counterexample: the source text `#instances\ninclude web`
uses the reserved word `include` where a name (the instance line's
node-class name) is required, yet the parse throws the structural error
`Expected file path string` — not an error expecting an identifier (and a
`udp` in such a leading position does not throw at all: the loop sticks,
see C1). -/
theorem c9_counterexample :
    parseF 50 none inputKwName none =
      .err (.exp ("Expected file path string") 2 9 .IDENTIFIER) := by rfl

/-- Claim C9 (amended): `udp` and `include` lex to their keyword tokens in
every letter casing; a name position reached inside construct parsing
(instance entry name, NAT name, star-marked connector name) raises a
structural error expecting an identifier on such a keyword token; but at
construct-leading name positions the dispatch does not enter the
construct, so no expecting-identifier error is thrown there. -/
theorem c9_keywords_reserved :
    (∀ l ∈ casingsOf (("udp" : String).data),
        tokenize l = .ok [⟨.UDP, String.mk l, 1, 1⟩, ⟨.EOF, "", 1, 4⟩]) ∧
    (∀ l ∈ casingsOf (("include" : String).data),
        tokenize l = .ok [⟨.INCLUDE, String.mk l, 1, 1⟩, ⟨.EOF, "", 1, 8⟩]) ∧
    (∀ st, ((peekT st).type = .UDP ∨ (peekT st).type = .INCLUDE) →
        parseInstanceEntry st =
          .err (.exp ("Expected instance name")
            (peekT st).line (peekT st).column (peekT st).type)) ∧
    (∀ st, (peekT st).type = .AT →
        ((peekT (advanceT st).2).type = .UDP ∨ (peekT (advanceT st).2).type = .INCLUDE) →
        parseNAT st =
          .err (.exp ("Expected NAT name")
            (peekT (advanceT st).2).line (peekT (advanceT st).2).column
            (peekT (advanceT st).2).type)) ∧
    (∀ st, (peekT st).type = .STAR →
        ((peekT (advanceT st).2).type = .UDP ∨ (peekT (advanceT st).2).type = .INCLUDE) →
        parseConnector st =
          .err (.exp ("Expected connector name")
            (peekT (advanceT st).2).line (peekT (advanceT st).2).column
            (peekT (advanceT st).2).type)) := by
  refine ⟨?_, ?_, ?_, ?_, ?_⟩
  · set_option maxRecDepth 10000 in decide
  · set_option maxRecDepth 40000 in decide
  · intro st h
    rcases h with h | h <;> simp [parseInstanceEntry, expectT, checkT, h, pbind]
  · intro st h1 h2
    rcases h2 with h2 | h2 <;>
      simp [parseNAT, expectT, checkT, h1, h2, pbind]
  · intro st h1 h2
    rcases h2 with h2 | h2 <;>
      simp [parseConnector, matchT, expectT, checkT, h1, h2, pbind]

/-- Witness for C9 (amended) at concrete inputs: `UDP` lexes to the
keyword in upper case, and an instance entry starting with the `udp`
keyword token errors expecting an instance name. -/
theorem c9_keywords_reserved_witness :
    tokenize (("UDP" : String).data) =
      .ok [⟨.UDP, "UDP", 1, 1⟩, ⟨.EOF, "", 1, 4⟩] ∧
    parseInstanceEntry stUdpTok =
      .err (.exp ("Expected instance name") 1 1 .UDP) :=
  ⟨c9_keywords_reserved.1 (("UDP" : String).data) (by decide),
   c9_keywords_reserved.2.2.1 stUdpTok (Or.inl (by rfl))⟩

/-- Claim C7 counterexample: in the layout of `astEx` the webserver1
entity is on layer 0 yet its pixel column is 40 (the padding), not
`layer * (box width + 3 * padding) = 0` as the claim states: the code
adds the padding as an offset to both coordinates. -/
theorem c7_counterexample :
    layerOf (instLayerState astEx) ("webserver1") = 0 ∧
    ((layoutInstances defaultOptions astEx).1.map (fun r => (r.name, r.position.x))) =
      [("webserver1", 40), ("mysql1", 360)] ∧
    (40 : Nat) ≠ 0 * (200 + 3 * 40) :=
  ⟨rfl, rfl, by decide⟩

/-- Claim C7 (amended): every positioned entity of the instances view has
`x = padding + layer * (box width + 3 * padding)` and
`y = padding + row * (box height + 2 * padding)` (the claim's formulas
plus the leading padding offset), and its box height fits
max(server-connector count, client-connector count) at pitch 24 above
content start 55, bounded below by the minimum box height; NAT boxes get
the same coordinates with a centring offset and fixed size. -/
theorem c7_coord_conversion (opts : VOptions) (ast : AST) :
    (∀ r ∈ (layoutInstances opts ast).1,
      r.position.x = opts.padding +
        layerOf (instLayerState ast) r.name * (opts.nodeWidth + opts.padding * 3) ∧
      r.position.y = opts.padding +
        rowOf (instRows ast) r.name * (opts.nodeHeight + opts.padding * 2) ∧
      r.position.height =
        max opts.nodeHeight
          (55 + max (serconsOf r.nodeClass).length (cliconsOf r.nodeClass).length * 24 + 15)) ∧
    (∀ n ∈ (layoutInstances opts ast).2,
      n.position.x = opts.padding +
        layerOf (instLayerState ast) n.name * (opts.nodeWidth + opts.padding * 3) +
        (opts.nodeWidth - 120) / 2 ∧
      n.position.y = opts.padding +
        rowOf (instRows ast) n.name * (opts.nodeHeight + opts.padding * 2) ∧
      n.position.height = 60) := by
  constructor
  · intro r hr
    simp only [layoutInstances, List.mem_filterMap] at hr
    obtain ⟨i, hi, hmk⟩ := hr
    unfold mkRenderedInstance at hmk
    rcases hl : List.lookup i.nodeClass (nodeClassMapOf ast) with _ | nc <;> rw [hl] at hmk
    · cases hmk
    · simp only [Option.some.injEq] at hmk
      subst hmk
      exact ⟨rfl, rfl, rfl⟩
  · intro n hn
    simp only [layoutInstances, List.mem_map] at hn
    obtain ⟨nat, hmem, heq⟩ := hn
    subst heq
    exact ⟨rfl, rfl, rfl⟩

/-- Witness for C7 (amended) at a concrete entity: the webserver1 box of
`astEx` satisfies the corrected coordinate formulas. -/
theorem c7_coord_conversion_witness :
    rWeb.position.x = defaultOptions.padding +
      layerOf (instLayerState astEx) rWeb.name *
        (defaultOptions.nodeWidth + defaultOptions.padding * 3) ∧
    rWeb.position.y = defaultOptions.padding +
      rowOf (instRows astEx) rWeb.name *
        (defaultOptions.nodeHeight + defaultOptions.padding * 2) ∧
    rWeb.position.height =
      max defaultOptions.nodeHeight
        (55 + max (serconsOf rWeb.nodeClass).length (cliconsOf rWeb.nodeClass).length * 24 + 15) :=
  (c7_coord_conversion defaultOptions astEx).1 rWeb (by decide)

/-- Claim C8: the end-to-end scenario input parses to an AST with exactly
2 node classes, 1 link class, 2 instance groups of 1 entry each, 0 NATs
and 1 connection, and the instances-view layer assignment places the
web_server instance at layer 0 and the mysql_server instance at layer 1. -/
theorem c8_end_to_end :
    parseResC8.isOk = true ∧
    astC8.nodeClasses.length = 2 ∧
    astC8.linkClasses.length = 1 ∧
    astC8.instances.length = 2 ∧
    astC8.instances.map (fun g => g.instances.length) = [1, 1] ∧
    astC8.nats = [] ∧
    astC8.connections.length = 1 ∧
    (instLayerState astC8).layers.lookup ("webserver1") = some 0 ∧
    (instLayerState astC8).layers.lookup ("mysql1") = some 1 := by
  set_option maxRecDepth 10000 in
  exact ⟨rfl, rfl, rfl, rfl, rfl, rfl, rfl, rfl, rfl⟩

end SADL
